import Mathlib

/-!
Verification development for `hydrolib/dhydamo/io/common.py`
(`ExtendedGeoDataFrame` and its helpers).

The Python module is shallowly embedded: dataframes become lists of
features, pandas/shapely machine objects become inductive types, raised
exceptions become an error component of the result, and mutation of
`self` becomes explicit state passing (each method returns the new state
together with the exception it raised, if any).
-/

namespace HydroCommon

/-- Kinds of Python exceptions raised by the module. -/
inductive PyErr
  | keyError
  | typeError
  | valueError
  | indexError
  | ioError
deriving DecidableEq, Repr

instance {ε α : Type} [DecidableEq ε] [DecidableEq α] : DecidableEq (Except ε α) := fun a b =>
  match a, b with
  | .ok x, .ok y =>
      if h : x = y then .isTrue (by rw [h]) else .isFalse (by intro hc; cases hc; exact h rfl)
  | .error x, .error y =>
      if h : x = y then .isTrue (by rw [h]) else .isFalse (by intro hc; cases hc; exact h rfl)
  | .ok _, .error _ => .isFalse (by intro hc; cases hc)
  | .error _, .ok _ => .isFalse (by intro hc; cases hc)

/-- Shapely geometry objects, by constructor.  A `point` carries its two
coordinates; `lineString` carries its vertex coordinates; `polygon` its
shell; the multi-variants carry their parts. -/
inductive Geom
  | point (x y : Int)
  | lineString (pts : List (Int × Int))
  | polygon (shell : List (Int × Int))
  | multiPolygon (parts : List (List (Int × Int)))
  | multiLineString (parts : List (List (Int × Int)))
deriving DecidableEq, Repr

/-- The `isinstance(geo, Point)` check of line 250. -/
def Geom.isPoint : Geom → Bool
  | .point _ _ => true
  | _ => false

/-- Coordinate extraction used when shapely's `LineString` constructor is
applied to a list of `Point` objects (line 296): each vertex contributes
its coordinate pair.  (Shapely only accepts point-like inputs there; the
grouping code only ever stores `Point` geometries in the slots.) -/
def toCoord : Geom → Int × Int
  | .point x y => (x, y)
  | _ => (0, 0)

/-- One row of a GeoPackage point layer as consumed by the grouping code
of `read_gpkg_layer`: its geometry, the value of the `groupby_column`
(the branch identifier) and the value of the `order_column`. -/
structure PtRow where
  geom : Geom
  branch : String
  order : Int
deriving DecidableEq, Repr

/-- Lexicographic comparison on strings by character code, the order
`np.unique` sorts string arrays by. -/
def strLt (a b : String) : Bool := strLtAux a.data b.data
where
  strLtAux : List Char → List Char → Bool
    | [], [] => false
    | [], _ :: _ => true
    | _ :: _, [] => false
    | a :: as, b :: bs =>
        if a.val < b.val then true else if b.val < a.val then false else strLtAux as bs

/-- Insert a value into a sorted duplicate-free list, keeping it sorted
and duplicate-free. -/
def insertUnique (x : String) : List String → List String
  | [] => [x]
  | y :: ys =>
      if strLt x y then x :: y :: ys
      else if x = y then y :: ys
      else y :: insertUnique x ys

/-- `np.unique` (line 260): the sorted list of distinct values. -/
def np_unique (xs : List String) : List String := xs.foldr insertUnique []

/-- The count returned next to each unique value by
`np.unique(..., return_counts=True)` (line 260): how often `b` occurs. -/
def countB (vals : List String) (b : String) : Nat := vals.count b

/-- Ascending insertion into a sorted list of integers. -/
def insertInt (x : Int) : List Int → List Int
  | [] => [x]
  | y :: ys => if x ≤ y then x :: y :: ys else y :: insertInt x ys

/-- Python's `list.sort()` on integers: ascending stable sort. -/
def sortInts (xs : List Int) : List Int := xs.foldr insertInt []

/-- `lst_volgnr` of lines 271-272: the sorted list of order values of the
rows belonging to branch `b`. -/
def sortedOrders (rows : List PtRow) (b : String) : List Int :=
  sortInts ((rows.filter (fun r => r.branch = b)).map (fun r => r.order))

/-- The inner loop of lines 273-275: `[i for i, x in enumerate(lst) if
x == v]`, the positions of `v` in `lst`, counting from `i`. -/
def matchIdxsFrom (i : Nat) (v : Int) : List Int → List Nat
  | [] => []
  | x :: xs => if x = v then i :: matchIdxsFrom (i + 1) v xs else matchIdxsFrom (i + 1) v xs

/-- Positions of `v` in `lst` (lines 273-275, with `enumerate`). -/
def matchIdxs (lst : List Int) (v : Int) : List Nat := matchIdxsFrom 0 v lst

/-- `order_rel` of lines 269-275: for each row, the positions at which
its order value occurs in the sorted order list of its branch, all
appended into one flat list.  (When a branch holds duplicate order
values a single row appends several entries, so this list can be longer
than the row list; the later `zip` then truncates it.) -/
def order_rel (rows : List PtRow) : List Nat :=
  rows.flatMap (fun r => matchIdxs (sortedOrders rows r.branch) r.order)

/-- `startnr` of lines 263-266 for one branch: starts at
`layer.shape[0] + 1` and is min-reduced with every order value of the
branch. -/
def startnr (rows : List PtRow) (b : String) : Int :=
  rows.foldl (fun acc r => if r.branch = b then min r.order acc else acc)
    ((rows.length : Int) + 1)

/-- The `lines` dictionary of line 261: for each branch a slot list.  A
`none` slot is the integer `0` placeholder the dictionary is initialised
with; `some p` is a point written by the assignment loop. -/
def Lines : Type := String → List (Option Geom)

/-- Line 261: `lines = {branch: [0] * count for branch, count in
zip(branches, counts)}`.  (A branch value that does not occur gets the
empty slot list; such keys are never looked up.) -/
def initLines (vals : List String) : Lines :=
  fun b => List.replicate (countB vals b) none

/-- Write `some g` into slot `j` of branch `b`
(`lines[branch][volgnr_rel] = point`, line 285). -/
def updateLines (lines : Lines) (b : String) (j : Nat) (g : Geom) : Lines :=
  fun b' => if b' = b then (lines b).set j (some g) else lines b'

/-- The assignment loop of lines 281-285.  Each `(row, rel)` pair writes
the row's point into slot `rel` of the row's branch; a slot index out of
range is a Python `IndexError`. -/
def assignLoop : List (PtRow × Nat) → Lines → Except PyErr Lines
  | [], lines => .ok lines
  | (r, rel) :: rest, lines =>
      if rel < (lines r.branch).length then
        assignLoop rest (updateLines lines r.branch rel r.geom)
      else .error .indexError

/-- Conversion of one element of the sequence handed to shapely's
`LineString` constructor (line 296): a `Point` contributes its
coordinate pair; any other element makes the constructor raise. -/
def toCoordE : Geom → Except PyErr (Int × Int)
  | .point x y => .ok (x, y)
  | _ => .error .typeError

/-- Conversion of the whole sequence handed to `LineString`, stopping
at the first non-point-like element. -/
def toCoords : List Geom → Except PyErr (List (Int × Int))
  | [] => .ok []
  | g :: gs =>
      match toCoordE g, toCoords gs with
      | .error e, _ => .error e
      | .ok _, .error e => .error e
      | .ok c, .ok cs => .ok (c :: cs)

/-- Shapely's `LineString` constructor (line 296): converts the
sequence, and rejects a single coordinate with
`ValueError: LineStrings must have at least 2 coordinate tuples`
(an empty sequence builds the empty LineString). -/
def buildLineString (pts : List Geom) : Except PyErr Geom :=
  match toCoords pts with
  | .error e => .error e
  | .ok coords =>
      if coords.length = 1 then .error .valueError else .ok (.lineString coords)

/-- The branches the loop of line 288 visits: `branches[~singlepoint]`,
the sorted unique branches having at least two points. -/
def multiPointBranches (vals : List String) : List String :=
  (np_unique vals).filter (fun b => 2 ≤ countB vals b)

/-- The warnings printed by lines 289-292, identified by the branch each
one names: a branch with at least two points whose slot list still holds
an unfilled slot after assignment.  (This is what the loop emits when
every `LineString` construction succeeds; a constructor error cuts the
loop short after its own branch's warning.) -/
def groupWarnings (vals : List String) (lines : Lines) : List String :=
  (multiPointBranches vals).filter (fun b => (lines b).any (fun s => s.isNone))

/-- The loop of lines 288-296 over `branches[~singlepoint]`: for each
branch, first the warning is printed when an unfilled slot remains,
then the branch's dictionary entry is replaced by the `LineString`
built from the filled slots only; a constructor error aborts the loop
(and the whole call), keeping the warnings printed so far.  The `built`
map models the dictionary restricted to the processed branches;
entries of unprocessed branches still hold their slot lists and are
never read downstream. -/
def buildLinesLoop (lines : Lines) (built : String → Geom) :
    List String → List String × Except PyErr (String → Geom)
  | [] => ([], .ok built)
  | b :: bs =>
      let ws := if (lines b).any (fun s => s.isNone) then [b] else []
      match buildLineString ((lines b).filterMap id) with
      | .error e => (ws, .error e)
      | .ok g =>
          let rest := buildLinesLoop lines (fun b' => if b' = b then g else built b') bs
          (ws ++ rest.1, rest.2)

/-- Whether `branches[singlepoint]` (line 299) is non-empty: some branch
has fewer than two points. -/
def hasSinglepoint (vals : List String) : Bool :=
  (np_unique vals).any (fun b => countB vals b < 2)

/-- Lines 302-307: `startnrs` pairs each row with its branch's start
number and `idx` keeps exactly the positions whose order value equals
it; `fields = layer.iloc[idx, :]` is therefore the sublist of rows whose
order equals their branch's start number, in row order. -/
def fieldsOf (rows : List PtRow) : List PtRow :=
  rows.filter (fun r => r.order = startnr rows r.branch)

/-- The point-grouping portion of `ExtendedGeoDataFrame.read_gpkg_layer`
(lines 244-310), for a call with a `groupby_column`.  The layer is given
as its (lowercased) column list and its rows; the result is the list of
warnings printed (by the branch each names) together with either the
produced features (`fields` rows with their geometry replaced by the
grouped line, line 310 and 317) or the exception raised.

Modelled Python failures beyond the explicit `raise` statements:
`layer.geometry.iloc[0]` on an empty layer raises `IndexError`
(line 250); the `LineString` constructor of line 296 raises on a
malformed sequence (see `buildLineString`); and the loop of lines
298-300 evaluates `groupbyvalues.index(branch)` — `groupbyvalues` is a
pandas `Series`, whose `.index` attribute is the `RangeIndex` object,
and calling it raises `TypeError: 'RangeIndex' object is not
callable`; hence any branch with a single point aborts the call with a
`TypeError`. -/
def read_gpkg_layer_grouping (columns : List String)
    (groupby_column order_column : String) (rows : List PtRow) :
    List String × Except PyErr (List PtRow) :=
  if groupby_column ∉ columns then ([], .error .valueError)
  else
    match rows with
    | [] => ([], .error .indexError)
    | r0 :: _ =>
      if ¬ r0.geom.isPoint then ([], .error .valueError)
      else if order_column ∉ columns then ([], .error .keyError)
      else
        let vals := rows.map (fun r => r.branch)
        match assignLoop (rows.zip (order_rel rows)) (initLines vals) with
        | .error e => ([], .error e)
        | .ok lines =>
          match buildLinesLoop lines (fun _ => Geom.lineString [])
              (multiPointBranches vals) with
          | (warns, .error e) => (warns, .error e)
          | (warns, .ok built) =>
            if hasSinglepoint vals then (warns, .error .typeError)
            else
              (warns, .ok ((fieldsOf rows).map
                (fun r => { r with geom := built r.branch })))

/-- Attribute values held in dataframe cells: strings, integers, or the
missing value (`NaN`/`None`). -/
inductive Val
  | str (s : String)
  | int (n : Int)
  | null
deriving DecidableEq, Repr

/-- Rendering of a value inside an f-string (lines 117 and 329). -/
def valStr : Val → String
  | .str s => s
  | .int n => toString n
  | .null => "nan"

/-- One feature of a GeoDataFrame: its geometry (which may be missing)
and its attribute cells, keyed by column name. -/
structure Feature where
  geom : Option Geom
  attrs : List (String × Val)
deriving DecidableEq, Repr

/-- Cell lookup `row[col]`; rows carry a cell for every non-geometry
column of their frame, so the `null` default is only reachable off that
domain. -/
def getAttr (f : Feature) (c : String) : Val := (f.attrs.lookup c).getD .null

/-- Overwrite the cell of an existing column. -/
def setAttr (f : Feature) (c : String) (v : Val) : Feature :=
  { f with attrs := f.attrs.map (fun p => if p.1 = c then (c, v) else p) }

/-- A `geopandas.GeoDataFrame`: its non-geometry columns, its features,
and its coordinate reference system (as a numeric EPSG-style code). -/
structure GeoDataFrame where
  columns : List String
  feats : List Feature
  crs : Int
deriving DecidableEq, Repr

/-- The shapely classes a `geotype` requirement can name. -/
inductive GeoType
  | point
  | lineString
  | polygon
  | multiPolygon
  | multiLineString
deriving DecidableEq, Repr

/-- `isinstance(geo, self.geotype)` (line 189): `None` geometries are
not instances of any shapely class; otherwise the constructor must
match. -/
def isInstanceOf : Option Geom → GeoType → Bool
  | none, _ => false
  | some (.point _ _), .point => true
  | some (.lineString _), .lineString => true
  | some (.polygon _), .polygon => true
  | some (.multiPolygon _), .multiPolygon => true
  | some (.multiLineString _), .multiLineString => true
  | some _, _ => false

/-- An `ExtendedGeoDataFrame`: the two `_metadata` attributes plus the
wrapped dataframe contents. -/
structure EGDF where
  required_columns : List String
  geotype : GeoType
  df : GeoDataFrame
deriving DecidableEq, Repr

/-- `delete_all` (lines 59-65): every row is dropped; the columns (and
crs) survive. -/
def delete_all (df : GeoDataFrame) : GeoDataFrame := { df with feats := [] }

/-- `_check_columns` succeeds (lines 168-183) exactly when every
required column is present. -/
def check_columns_ok (required present : List String) : Bool :=
  required.all (fun c => present.contains c)

/-- `_check_geotype` succeeds (lines 185-195) exactly when every stored
geometry is an instance of the required geotype. -/
def check_geotype_ok (self : EGDF) : Bool :=
  self.df.feats.all (fun f => isInstanceOf f.geom self.geotype)

/-- `set_data` (lines 144-166).  The stored rows are first cleared
(`delete_all`), the column check may raise `KeyError` before anything is
copied, then the argument frame's contents are copied in (modelling the
column-by-column copy and the index bookkeeping of lines 153-162 as
replacing the stored contents), and finally the geometry-type check may
raise `TypeError` — after the copy, so the data is stored even then.
The result is the new state of `self` paired with the exception
raised. -/
def EGDF.set_data (self : EGDF) (gdf : GeoDataFrame)
    (check_columns check_geotype : Bool) : EGDF × Option PyErr :=
  let cleared : EGDF := { self with df := delete_all self.df }
  if check_columns ∧ ¬ check_columns_ok self.required_columns gdf.columns then
    (cleared, some .keyError)
  else
    let stored : EGDF := { self with df := gdf }
    if check_geotype ∧ ¬ check_geotype_ok stored then (stored, some .typeError)
    else (stored, none)

/-- Whether a geometry is a `Polygon` or `MultiPolygon` (line 348). -/
def isPolygonal : Geom → Bool
  | .polygon _ => true
  | .multiPolygon _ => true
  | _ => false

/-- `self.intersects(geometry)` on a row whose geometry may be missing:
geopandas reports `False` for missing geometries.  The behaviour of
shapely's `intersects` itself is the oracle `inter`. -/
def interOpt (inter : Geom → Geom → Bool) (g : Option Geom) (clipGeom : Geom) : Bool :=
  match g with
  | none => false
  | some g0 => inter g0 clipGeom

/-- `clip` (lines 344-356): reject non-polygonal extents with
`TypeError`, keep the intersecting features, raise `ValueError` if none
is left, and store the survivors through `set_data` (with its default
checks). -/
def EGDF.clip (self : EGDF) (inter : Geom → Geom → Bool) (geometry : Geom) :
    EGDF × Option PyErr :=
  if ¬ isPolygonal geometry then (self, some .typeError)
  else
    let gdf : GeoDataFrame :=
      { self.df with feats := self.df.feats.filter (fun f => interOpt inter f.geom geometry) }
    if gdf.feats.isEmpty then (self, some .valueError)
    else self.set_data gdf true true

/-- `check_projection` (lines 358-365): reproject (through the
geopandas `to_crs` oracle) exactly when the stored crs differs from the
target; otherwise only a log line is written. -/
def EGDF.check_projection (self : EGDF) (to_crs : Int → GeoDataFrame → GeoDataFrame)
    (crs_out : Int) : EGDF :=
  if crs_out ≠ self.df.crs then { self with df := to_crs crs_out self.df } else self

/-- `filter_cols` (lines 87-92): drop the columns that are not among
the required ones (the dedicated geometry column is not part of
`columns` in this model and survives). -/
def dropCols (required : List String) (df : GeoDataFrame) : GeoDataFrame :=
  { df with
      columns := df.columns.filter (fun c => required.contains c),
      feats := df.feats.map (fun f =>
        { f with attrs := f.attrs.filter (fun p => required.contains p.1) }) }

/-- `filter_rows` (lines 95-98): keep the rows whose cells equal the
given key/value pairs; a key that is not a column of the frame is a
pandas `KeyError`. -/
def filterRowsStep (df : GeoDataFrame) (filter_rows : Option (List (String × Val))) :
    Except PyErr GeoDataFrame :=
  match filter_rows with
  | none => .ok df
  | some fr =>
      if ¬ (fr.map (fun p => p.1)).all (fun k => df.columns.contains k) then
        .error .keyError
      else
        .ok { df with
          feats := df.feats.filter (fun f => fr.all (fun p => getAttr f p.1 = p.2)) }

/-- `column_mapping` renaming (lines 109-110): rename columns and the
keys of each row's cells. -/
def renameCols (m : List (String × String)) (df : GeoDataFrame) : GeoDataFrame :=
  { df with
      columns := df.columns.map (fun c => (m.lookup c).getD c),
      feats := df.feats.map (fun f =>
        { f with attrs := f.attrs.map (fun p => ((m.lookup p.1).getD p.1, p.2)) }) }

/-- `gdf.explode()` on one feature: a multi-part geometry becomes one
feature per part (with the attributes copied); other features pass
through unchanged. -/
def explodeF (f : Feature) : List Feature :=
  match f.geom with
  | some (.multiPolygon ps) => ps.map (fun p => { f with geom := some (.polygon p) })
  | some (.multiLineString ls) => ls.map (fun l => { f with geom := some (.lineString l) })
  | _ => [f]

/-- The identifier-renaming loop of lines 114-120 (and 325-331): every
id value occurring in more than one row has each of its rows renamed to
`f"{value}_{n}"`, `n` enumerating those rows in row order.  (The loop
iterates over the distinct id values and rewrites each ambiguous group
with one boolean-mask assignment; per row this is the count of earlier
rows of its group.) -/
def renameDups (id_col : String) (feats : List Feature) : List Feature :=
  (List.range feats.length).zipWith (fun k f =>
      let v := getAttr f id_col
      if 1 < feats.countP (fun g => getAttr g id_col = v) then
        setAttr f id_col (.str (valStr v ++ "_" ++ toString
          ((feats.take k).countP (fun g => getAttr g id_col = v))))
      else f)
    feats

/-- The tail of `read_shp`: optional clip (line 135-136) and optional
reprojection (lines 139-142), threading the state and stopping at the
first exception. -/
def readShpTail (st : EGDF) (clip_geom : Option Geom) (inter : Geom → Geom → Bool)
    (proj_crs : Option Int) (to_crs : Int → GeoDataFrame → GeoDataFrame) :
    EGDF × Option PyErr :=
  match clip_geom with
  | some g =>
      match st.clip inter g with
      | (st2, some e) => (st2, some e)
      | (st2, none) =>
          match proj_crs with
          | some c => (st2.check_projection to_crs c, none)
          | none => (st2, none)
  | none =>
      match proj_crs with
      | some c => (st.check_projection to_crs c, none)
      | none => (st, none)

/-- `read_shp` (lines 67-142).  The result of `gpd.read_file(path)` is
given as `file`; `inter` and `to_crs` are the geopandas oracles used by
the optional clip and reprojection steps.

Note on line 112: the condition
`if "MultiPolygon" or "MultiLineString" in str(gdf.geometry.type):` is
the Python expression `"MultiPolygon" or (...)`, and the non-empty
string literal is truthy — the branch is ALWAYS taken, so the frame is
always exploded and the identifier-renaming loop always runs.  Inside
it, `gdf[id_col]` raises `KeyError` when `id_col` is not a column. -/
def EGDF.read_shp (self : EGDF) (file : GeoDataFrame)
    (column_mapping : Option (List (String × String)))
    (check_columns : Bool)
    (proj_crs : Option Int) (to_crs : Int → GeoDataFrame → GeoDataFrame)
    (clip_geom : Option Geom) (inter : Geom → Geom → Bool)
    (check_geotype : Bool)
    (id_col : String)
    (filter_cols : Bool)
    (filter_rows : Option (List (String × Val))) : EGDF × Option PyErr :=
  let gdf0 := if filter_cols then dropCols self.required_columns file else file
  match filterRowsStep gdf0 filter_rows with
  | .error e => (self, some e)
  | .ok gdf1 =>
    let gdf2 : GeoDataFrame := { gdf1 with feats := gdf1.feats.filter (fun f => f.geom.isSome) }
    let gdf3 := match column_mapping with | some m => renameCols m gdf2 | none => gdf2
    if id_col ∈ gdf3.columns then
      let gdf4 : GeoDataFrame :=
        { gdf3 with feats := renameDups id_col (gdf3.feats.flatMap explodeF) }
      if gdf4.feats.isEmpty then (self, some .ioError)
      else
        match self.set_data gdf4 check_columns check_geotype with
        | (st, some e) => (st, some e)
        | (st, none) => readShpTail st clip_geom inter proj_crs to_crs
    else (self, some .keyError)

/-- Pandas element-wise `+` on two cells: numbers add, strings
concatenate, a missing value propagates through numeric addition, and a
mixed string/number addition is a `TypeError` (`none`). -/
def addVal : Val → Val → Option Val
  | .int a, .int b => some (.int (a + b))
  | .str a, .str b => some (.str (a ++ b))
  | .null, .int _ => some .null
  | .int _, .null => some .null
  | .null, .null => some .null
  | _, _ => none

/-- `self[col1] + self[col2]` over all rows; `none` when the addition
raises. -/
def addCols (feats : List Feature) (c1 c2 : String) : Option (List Val) :=
  feats.mapM (fun f => addVal (getAttr f c1) (getAttr f c2))

/-- Store a column: overwrite it when present, append it otherwise. -/
def setCol (df : GeoDataFrame) (c : String) (vs : List Val) : GeoDataFrame :=
  { df with
      columns := if c ∈ df.columns then df.columns else df.columns ++ [c],
      feats := df.feats.zipWith (fun f v =>
        if (f.attrs.lookup c).isSome then setAttr f c v
        else { f with attrs := f.attrs ++ [(c, v)] }) vs }

/-- `merge_columns` (lines 395-407).  The guard
`if col1 or col2 in self.columns.values:` parses as
`col1 or (col2 in ...)`, so a non-empty `col1` string makes it truthy
regardless of the columns.  Inside the `try`, a missing column
(`KeyError`) or a failing element-wise addition is caught and re-raised
as `ValueError`. -/
def EGDF.merge_columns (self : EGDF) (col1 col2 rename_col : String) :
    EGDF × Option PyErr :=
  if col1 ≠ "" ∨ col2 ∈ self.df.columns then
    if col1 ∈ self.df.columns ∧ col2 ∈ self.df.columns then
      match addCols self.df.feats col1 col2 with
      | some vs => ({ self with df := setCol self.df rename_col vs }, none)
      | none => (self, some .valueError)
    else (self, some .valueError)
  else (self, none)

/-- Ascending stable insertion of a row by its order value. -/
def insertRow (x : PtRow) : List PtRow → List PtRow
  | [] => [x]
  | y :: ys => if x.order ≤ y.order then x :: y :: ys else y :: insertRow x ys

/-- Stable sort of rows by ascending order value. -/
def sortRows (xs : List PtRow) : List PtRow := xs.foldr insertRow []

/-- Modelled from the spec of claim C1: the line geometry a branch is
expected to get — the branch's points sorted by ascending order index. -/
def spec_branch_line (rows : List PtRow) (b : String) : Geom :=
  Geom.lineString
    (((sortRows (rows.filter (fun r => r.branch = b))).map (fun r => toCoord r.geom)))

/-- The assignment loop of lines 281-285 without its bound check: used
to describe the state `assignLoop` succeeds with. -/
def assignAll : List (PtRow × Nat) → Lines → Lines
  | [], lines => lines
  | (r, rel) :: rest, lines => assignAll rest (updateLines lines r.branch rel r.geom)

/-- The relative position a row's order value gets in `order_rel` when
the order values of its branch are pairwise distinct: the number of
smaller order values in its branch. -/
def relIdx (rows : List PtRow) (r : PtRow) : Nat :=
  (sortedOrders rows r.branch).countP (fun x => decide (x < r.order))

/-- Every required column is present iff `_check_columns` passes. -/
theorem check_columns_ok_iff (required present : List String) :
    check_columns_ok required present = true ↔ ∀ c ∈ required, c ∈ present := by
  simp [check_columns_ok, List.all_eq_true]

/-- Every stored geometry matches iff `_check_geotype` passes. -/
theorem check_geotype_ok_iff (self : EGDF) :
    check_geotype_ok self = true ↔
      ∀ f ∈ self.df.feats, isInstanceOf f.geom self.geotype = true := by
  simp [check_geotype_ok, List.all_eq_true]

/-- Branch normal form of `set_data`, by the values of the two
checks. -/
theorem set_data_eq (self : EGDF) (gdf : GeoDataFrame) (cc cg : Bool) :
    self.set_data gdf cc cg =
      if cc = true ∧ check_columns_ok self.required_columns gdf.columns = false then
        ({ self with df := delete_all self.df }, some .keyError)
      else if cg = true ∧ check_geotype_ok { self with df := gdf } = false then
        ({ self with df := gdf }, some .typeError)
      else ({ self with df := gdf }, none) := by
  cases hok : check_columns_ok self.required_columns gdf.columns <;>
    cases hgt : check_geotype_ok { self with df := gdf } <;>
      cases cc <;> cases cg <;> simp [EGDF.set_data, hok, hgt]

/-- C3.  Required-column enforcement: `set_data` with
`check_columns=True` raises `KeyError` iff some required column is
absent from the input frame's columns; with all required columns
present, no column-check error is raised and the input frame's contents
are stored. -/
theorem set_data_required_columns (self : EGDF) (gdf : GeoDataFrame) (cg : Bool) :
    ((self.set_data gdf true cg).2 = some .keyError ↔
      ∃ c ∈ self.required_columns, c ∉ gdf.columns) ∧
    ((∀ c ∈ self.required_columns, c ∈ gdf.columns) →
      (self.set_data gdf true cg).2 ≠ some .keyError ∧
        (self.set_data gdf true cg).1.df = gdf) := by
  simp only [set_data_eq]
  cases hok : check_columns_ok self.required_columns gdf.columns
  · have hmiss : ∃ c ∈ self.required_columns, c ∉ gdf.columns := by
      by_contra hc
      push_neg at hc
      rw [(check_columns_ok_iff _ _).mpr hc] at hok
      cases hok
    refine ⟨by simp [hmiss], fun hall => ?_⟩
    obtain ⟨c, hc, hnc⟩ := hmiss
    exact absurd (hall c hc) hnc
  · have hmem := (check_columns_ok_iff _ _).mp hok
    have hne : ¬ ∃ c ∈ self.required_columns, c ∉ gdf.columns := by
      rintro ⟨c, hc, hnc⟩
      exact hnc (hmem c hc)
    cases hgt : check_geotype_ok { self with df := gdf } <;> cases cg <;>
      simp [hne]

/-- Witness for C3 at a concrete instance: a required column `"a"`
missing from the input raises `KeyError`; with it present the data is
stored. -/
theorem set_data_required_columns_witness :
    ((EGDF.set_data ⟨["a"], .point, ⟨["a"], [], 0⟩⟩ ⟨["b"], [], 0⟩ true false).2
        = some .keyError ↔ ∃ c ∈ ["a"], c ∉ ["b"]) ∧
    (∀ c ∈ (["a"] : List String), c ∈ (["a", "b"] : List String)) ∧
    ((EGDF.set_data ⟨["a"], .point, ⟨["a"], [], 0⟩⟩ ⟨["a", "b"], [], 0⟩ true false).2
        ≠ some .keyError ∧
      (EGDF.set_data ⟨["a"], .point, ⟨["a"], [], 0⟩⟩ ⟨["a", "b"], [], 0⟩ true false).1.df
        = ⟨["a", "b"], [], 0⟩) :=
  ⟨(set_data_required_columns ⟨["a"], .point, ⟨["a"], [], 0⟩⟩ ⟨["b"], [], 0⟩ false).1,
   by decide,
   (set_data_required_columns ⟨["a"], .point, ⟨["a"], [], 0⟩⟩ ⟨["a", "b"], [], 0⟩ false).2
     (by decide)⟩

/-- C4.  Geometry-type enforcement: `set_data` with `check_geotype=True`
raises `TypeError` iff at least one geometry of the resulting stored
frame is not an instance of the instance's geotype (when the column
check raises first, nothing is stored and no `TypeError` is raised);
and when every input geometry matches, no `TypeError` is raised. -/
theorem set_data_geotype (self : EGDF) (gdf : GeoDataFrame) (cc : Bool) :
    ((self.set_data gdf cc true).2 = some .typeError ↔
      ∃ f ∈ (self.set_data gdf cc true).1.df.feats,
        isInstanceOf f.geom self.geotype = false) ∧
    ((∀ f ∈ gdf.feats, isInstanceOf f.geom self.geotype = true) →
      (self.set_data gdf cc true).2 ≠ some .typeError) := by
  simp only [set_data_eq]
  cases hgt : check_geotype_ok { self with df := gdf }
  · have hbad : ∃ f ∈ gdf.feats, isInstanceOf f.geom self.geotype = false := by
      by_contra hc
      push_neg at hc
      have : check_geotype_ok { self with df := gdf } = true := by
        refine (check_geotype_ok_iff _).mpr fun f hf => ?_
        have := hc f (by simpa using hf)
        cases hb : isInstanceOf f.geom self.geotype
        · exact absurd hb this
        · rfl
      rw [this] at hgt
      cases hgt
    refine ⟨?_, fun hall => ?_⟩
    · cases hok : check_columns_ok self.required_columns gdf.columns <;> cases cc <;>
        simp [delete_all, hbad]
    · obtain ⟨f, hf, hbf⟩ := hbad
      rw [hall f hf] at hbf
      cases hbf
  · have hall := (check_geotype_ok_iff { self with df := gdf }).mp hgt
    have hne : ¬ ∃ f ∈ gdf.feats, isInstanceOf f.geom self.geotype = false := by
      rintro ⟨f, hf, hbf⟩
      have := hall f (by simpa using hf)
      rw [this] at hbf
      cases hbf
    cases hok : check_columns_ok self.required_columns gdf.columns <;> cases cc <;>
      simp [delete_all, hne]

/-- Witness for C4 at a concrete instance: a `Polygon` geometry under a
`Point` geotype raises `TypeError`; an all-`Point` frame does not. -/
theorem set_data_geotype_witness :
    ((EGDF.set_data ⟨[], .point, ⟨[], [], 0⟩⟩ ⟨[], [⟨some (.polygon []), []⟩], 0⟩ false true).2
        = some .typeError ↔
      ∃ f ∈ (EGDF.set_data ⟨[], .point, ⟨[], [], 0⟩⟩
          ⟨[], [⟨some (.polygon []), []⟩], 0⟩ false true).1.df.feats,
        isInstanceOf f.geom GeoType.point = false) ∧
    (∀ f ∈ [(⟨some (.point 1 2), []⟩ : Feature)], isInstanceOf f.geom GeoType.point = true) ∧
    (EGDF.set_data ⟨[], .point, ⟨[], [⟨some (.point 1 2), []⟩], 0⟩⟩
        ⟨[], [⟨some (.point 1 2), []⟩], 0⟩ false true).2 ≠ some .typeError :=
  ⟨(set_data_geotype ⟨[], .point, ⟨[], [], 0⟩⟩ ⟨[], [⟨some (.polygon []), []⟩], 0⟩ false).1,
   by decide,
   (set_data_geotype ⟨[], .point, ⟨[], [⟨some (.point 1 2), []⟩], 0⟩⟩
      ⟨[], [⟨some (.point 1 2), []⟩], 0⟩ false).2 (by decide)⟩

/-- C5.  Spatial clipping: a non-polygonal extent raises `TypeError`;
an extent intersecting no stored feature raises `ValueError`; otherwise
exactly the features whose geometry intersects the extent are retained
(given the instance's own column and geotype invariants, which the
internal `set_data` call re-checks). -/
theorem clip_spec (self : EGDF) (inter : Geom → Geom → Bool) (g : Geom) :
    (isPolygonal g = false → self.clip inter g = (self, some .typeError)) ∧
    (isPolygonal g = true →
      (∀ f ∈ self.df.feats, interOpt inter f.geom g = false) →
      self.clip inter g = (self, some .valueError)) ∧
    (isPolygonal g = true →
      (∃ f ∈ self.df.feats, interOpt inter f.geom g = true) →
      (∀ c ∈ self.required_columns, c ∈ self.df.columns) →
      (∀ f ∈ self.df.feats, isInstanceOf f.geom self.geotype = true) →
      self.clip inter g =
        ({ self with df := { self.df with
            feats := self.df.feats.filter (fun f => interOpt inter f.geom g) } }, none)) := by
  refine ⟨fun hp => ?_, fun hp hnone => ?_, fun hp hsome hcols hgeo => ?_⟩
  · simp [EGDF.clip, hp]
  · have hnil : self.df.feats.filter (fun f => interOpt inter f.geom g) = [] := by
      simp only [List.filter_eq_nil_iff]
      intro f hf
      simp [hnone f hf]
    simp [EGDF.clip, hp, hnil]
  · obtain ⟨f0, hf0, hif0⟩ := hsome
    have hmem : f0 ∈ self.df.feats.filter (fun f => interOpt inter f.geom g) :=
      List.mem_filter.mpr ⟨hf0, hif0⟩
    have hne : (self.df.feats.filter (fun f => interOpt inter f.geom g)).isEmpty = false := by
      cases hl : self.df.feats.filter (fun f => interOpt inter f.geom g)
      · rw [hl] at hmem
        cases hmem
      · rfl
    have hok : check_columns_ok self.required_columns self.df.columns = true :=
      (check_columns_ok_iff _ _).mpr hcols
    have hgt : check_geotype_ok
        { self with df := { self.df with
            feats := self.df.feats.filter (fun f => interOpt inter f.geom g) } } = true := by
      refine (check_geotype_ok_iff _).mpr fun f hf => ?_
      have hf' : f ∈ self.df.feats.filter (fun f => interOpt inter f.geom g) := hf
      exact hgeo f (List.mem_filter.mp hf').1
    simp [EGDF.clip, hp, hne, set_data_eq, hok, hgt]

/-- Witness for C5 at a concrete instance: a `LineString` extent raises
`TypeError`; a polygon away from the single point raises `ValueError`;
a polygon hitting it retains exactly that feature (with shapely's
`intersects` instantiated by a box test). -/
theorem clip_spec_witness :
    (isPolygonal (.lineString []) = false ∧
      EGDF.clip ⟨[], .point, ⟨[], [⟨some (.point 1 1), []⟩], 0⟩⟩
          (fun _ _ => false) (.lineString [])
        = (⟨[], .point, ⟨[], [⟨some (.point 1 1), []⟩], 0⟩⟩, some .typeError)) ∧
    ((∀ f ∈ [(⟨some (.point 1 1), []⟩ : Feature)],
        interOpt (fun _ _ => false) f.geom (.polygon []) = false) ∧
      EGDF.clip ⟨[], .point, ⟨[], [⟨some (.point 1 1), []⟩], 0⟩⟩
          (fun _ _ => false) (.polygon [])
        = (⟨[], .point, ⟨[], [⟨some (.point 1 1), []⟩], 0⟩⟩, some .valueError)) ∧
    ((∃ f ∈ [(⟨some (.point 1 1), []⟩ : Feature)],
        interOpt (fun _ _ => true) f.geom (.polygon []) = true) ∧
      EGDF.clip ⟨[], .point, ⟨[], [⟨some (.point 1 1), []⟩], 0⟩⟩
          (fun _ _ => true) (.polygon [])
        = (⟨[], .point, ⟨[], ([⟨some (.point 1 1), []⟩] : List Feature).filter
            (fun f => interOpt (fun _ _ => true) f.geom (.polygon [])), 0⟩⟩, none)) :=
  ⟨⟨by decide,
    (clip_spec ⟨[], .point, ⟨[], [⟨some (.point 1 1), []⟩], 0⟩⟩
      (fun _ _ => false) (.lineString [])).1 (by decide)⟩,
   ⟨by decide,
    (clip_spec ⟨[], .point, ⟨[], [⟨some (.point 1 1), []⟩], 0⟩⟩
      (fun _ _ => false) (.polygon [])).2.1 (by decide) (by decide)⟩,
   ⟨by decide,
    (clip_spec ⟨[], .point, ⟨[], [⟨some (.point 1 1), []⟩], 0⟩⟩
      (fun _ _ => true) (.polygon [])).2.2 (by decide) (by decide) (by decide) (by decide)⟩⟩

/-- C6.  CRS normalization: `check_projection` leaves the instance
entirely unchanged when the stored CRS already equals the target, and
reprojects (through `to_crs`) exactly when it differs. -/
theorem check_projection_spec (self : EGDF)
    (to_crs : Int → GeoDataFrame → GeoDataFrame) (crs_out : Int) :
    (crs_out = self.df.crs → self.check_projection to_crs crs_out = self) ∧
    (crs_out ≠ self.df.crs →
      self.check_projection to_crs crs_out = { self with df := to_crs crs_out self.df }) := by
  refine ⟨fun h => ?_, fun h => ?_⟩ <;> simp [EGDF.check_projection, h]

/-- Witness for C6 at a concrete instance, with a reprojection oracle
that rewrites the crs code. -/
theorem check_projection_spec_witness :
    (EGDF.check_projection ⟨[], .point, ⟨[], [], 28992⟩⟩
        (fun c d => { d with crs := c }) 28992 = ⟨[], .point, ⟨[], [], 28992⟩⟩) ∧
    ((4326 : Int) ≠ 28992 ∧
      EGDF.check_projection ⟨[], .point, ⟨[], [], 28992⟩⟩
          (fun c d => { d with crs := c }) 4326
        = ⟨[], .point, (fun c d => { d with crs := c }) 4326 (⟨[], [], 28992⟩ : GeoDataFrame)⟩) :=
  ⟨(check_projection_spec ⟨[], .point, ⟨[], [], 28992⟩⟩
      (fun c d => { d with crs := c }) 28992).1 (by decide),
   by decide,
   (check_projection_spec ⟨[], .point, ⟨[], [], 28992⟩⟩
      (fun c d => { d with crs := c }) 4326).2 (by decide)⟩

/-- C8.  Column merging: for existing columns whose cells add cleanly,
the element-wise sum is stored under `rename_col`; whenever the guard is
entered and the merge does not succeed (a missing column or a failing
addition), `ValueError` is raised; and when neither column is present no
assignment is performed (the state is unchanged). -/
theorem merge_columns_spec (self : EGDF) (col1 col2 rename_col : String) :
    (col1 ∈ self.df.columns → col2 ∈ self.df.columns →
      ∀ vs, addCols self.df.feats col1 col2 = some vs →
        self.merge_columns col1 col2 rename_col
          = ({ self with df := setCol self.df rename_col vs }, none)) ∧
    ((col1 ≠ "" ∨ col2 ∈ self.df.columns) →
      (¬ (col1 ∈ self.df.columns ∧ col2 ∈ self.df.columns) ∨
        addCols self.df.feats col1 col2 = none) →
      (self.merge_columns col1 col2 rename_col).2 = some .valueError) ∧
    (col1 ∉ self.df.columns → col2 ∉ self.df.columns →
      (self.merge_columns col1 col2 rename_col).1 = self) := by
  refine ⟨fun h1 h2 vs hvs => ?_, fun hcond hfail => ?_, fun h1 h2 => ?_⟩
  · rw [EGDF.merge_columns, if_pos (Or.inr h2), if_pos ⟨h1, h2⟩, hvs]
  · rw [EGDF.merge_columns, if_pos hcond]
    by_cases hb : col1 ∈ self.df.columns ∧ col2 ∈ self.df.columns
    · rcases hfail with hf | hf
      · exact absurd hb hf
      · rw [if_pos hb, hf]
    · rw [if_neg hb]
  · by_cases hc : col1 ≠ "" ∨ col2 ∈ self.df.columns
    · rw [EGDF.merge_columns, if_pos hc, if_neg (by rintro ⟨ha, _⟩; exact h1 ha)]
    · rw [EGDF.merge_columns, if_neg hc]

/-- Witness for C8 at a concrete instance: two integer columns merge
into their sum; a missing column raises `ValueError`; two absent
columns leave the state unchanged. -/
theorem merge_columns_spec_witness :
    (addCols [⟨some (.point 0 0), [("a", .int 1), ("b", .int 2)]⟩] "a" "b"
        = some [.int 3] ∧
      EGDF.merge_columns
          ⟨[], .point, ⟨["a", "b"], [⟨some (.point 0 0), [("a", .int 1), ("b", .int 2)]⟩], 0⟩⟩
          "a" "b" "c"
        = (⟨[], .point, setCol ⟨["a", "b"],
            [⟨some (.point 0 0), [("a", .int 1), ("b", .int 2)]⟩], 0⟩ "c" [.int 3]⟩, none)) ∧
    ((EGDF.merge_columns
        ⟨[], .point, ⟨["a", "b"], [⟨some (.point 0 0), [("a", .int 1), ("b", .int 2)]⟩], 0⟩⟩
        "zz" "qq" "c").2 = some .valueError) ∧
    ((EGDF.merge_columns
        ⟨[], .point, ⟨["a", "b"], [⟨some (.point 0 0), [("a", .int 1), ("b", .int 2)]⟩], 0⟩⟩
        "zz" "qq" "c").1
      = ⟨[], .point, ⟨["a", "b"], [⟨some (.point 0 0), [("a", .int 1), ("b", .int 2)]⟩], 0⟩⟩) :=
  ⟨⟨by decide,
    (merge_columns_spec
      ⟨[], .point, ⟨["a", "b"], [⟨some (.point 0 0), [("a", .int 1), ("b", .int 2)]⟩], 0⟩⟩
      "a" "b" "c").1 (by decide) (by decide) [.int 3] (by decide)⟩,
   (merge_columns_spec
      ⟨[], .point, ⟨["a", "b"], [⟨some (.point 0 0), [("a", .int 1), ("b", .int 2)]⟩], 0⟩⟩
      "zz" "qq" "c").2.1 (by decide) (by decide),
   (merge_columns_spec
      ⟨[], .point, ⟨["a", "b"], [⟨some (.point 0 0), [("a", .int 1), ("b", .int 2)]⟩], 0⟩⟩
      "zz" "qq" "c").2.2 (by decide) (by decide)⟩

/-- C7 (code bug, line 112).  A shapefile with two single-part
`Polygon` features sharing the identifier `"a"`, loaded without column
mapping, filtering, clipping or reprojection: because the condition
`if "MultiPolygon" or "MultiLineString" in str(gdf.geometry.type):` is
always truthy, the identifier-renaming loop runs anyway and rewrites the
identifiers to `"a_0"` and `"a_1"` (printing that `"a"` is a
MultiPolygon split into parts), instead of storing them unaltered. -/
theorem read_shp_singlepart_rename_bug :
    (EGDF.read_shp ⟨[], .polygon, ⟨["code"], [], 28992⟩⟩
        ⟨["code"],
         [⟨some (.polygon [(0, 0), (1, 0), (0, 1)]), [("code", .str "a")]⟩,
          ⟨some (.polygon [(5, 5), (6, 5), (5, 6)]), [("code", .str "a")]⟩], 28992⟩
        none true none (fun _ d => d) none (fun _ _ => false) true "code" false none).2
      = none ∧
    ((EGDF.read_shp ⟨[], .polygon, ⟨["code"], [], 28992⟩⟩
        ⟨["code"],
         [⟨some (.polygon [(0, 0), (1, 0), (0, 1)]), [("code", .str "a")]⟩,
          ⟨some (.polygon [(5, 5), (6, 5), (5, 6)]), [("code", .str "a")]⟩], 28992⟩
        none true none (fun _ d => d) none (fun _ _ => false) true "code" false
        none).1.df.feats.map (fun f => getAttr f "code"))
      = [.str "a_0", .str "a_1"] := by
  exact ⟨by decide, by decide⟩

/-- C9 (code bug, line 112).  A file whose single feature has no
geometry and whose columns do not include the default identifier column
`"code"`: after dropping the geometry-less feature the frame is empty,
so the claimed `IOError` should be raised — but the always-taken
explode/rename branch evaluates `gdf["code"]` first, raising `KeyError`
instead. -/
theorem read_shp_empty_keyerror_bug :
    (EGDF.read_shp ⟨[], .polygon, ⟨["code"], [], 28992⟩⟩
        ⟨["x"], [⟨none, [("x", .int 1)]⟩], 28992⟩
        none true none (fun _ d => d) none (fun _ _ => false) true "code" false none).2
      = some .keyError := by
  decide

/-- Companion fact for C9: on an input that does carry the identifier
column, an empty after-drop frame does raise `IOError` and nothing is
stored. -/
theorem read_shp_empty_ioerror :
    EGDF.read_shp ⟨[], .polygon, ⟨["code"], [], 28992⟩⟩
        ⟨["code"], [⟨none, [("code", .str "a")]⟩], 28992⟩
        none true none (fun _ d => d) none (fun _ _ => false) true "code" false none
      = (⟨[], .polygon, ⟨["code"], [], 28992⟩⟩, some .ioError) := by
  decide

/-- C10 (code bug, line 300).  A layer holding a two-point branch
`"a"` and a single-point branch `"b"`: instead of silently excluding
branch `"b"`, the loop `order[groupbyvalues.index(branch)] = 0` calls
the pandas `Series.index` object and the whole call aborts with
`TypeError`, producing no features at all. -/
theorem read_gpkg_singlepoint_typeerror_bug :
    read_gpkg_layer_grouping ["branch", "ord"] "branch" "ord"
        [⟨.point 0 0, "a", 1⟩, ⟨.point 1 1, "a", 2⟩, ⟨.point 2 2, "b", 1⟩]
      = ([], .error .typeError) := by
  decide

/-- Counterexample to C1 as stated.  A layer with a single branch `"a"`
of two points with pairwise-distinct (merely non-contiguous) order
indices 10 and 11: because `startnr` is initialised to
`layer.shape[0] + 1 = 3` and min-reduced, the branch's start number
becomes 3, which no row's order equals, so `fields` is empty and the
grouping returns NO feature for branch `"a"` — not exactly one
LineString per branch. -/
theorem read_gpkg_layer_grouping_counterexample :
    read_gpkg_layer_grouping ["branch", "ord"] "branch" "ord"
        [⟨.point 1 1, "a", 10⟩, ⟨.point 0 0, "a", 11⟩]
      = ([], .ok []) ∧
    countB (([⟨.point 1 1, "a", 10⟩, ⟨.point 0 0, "a", 11⟩] : List PtRow).map
        (fun r => r.branch)) "a" = 2 ∧
    (10 : Int) ≠ 11 := by
  exact ⟨by decide, by decide, by decide⟩

/-- Membership in `insertUnique`. -/
theorem mem_insertUnique (x y : String) (l : List String) :
    y ∈ insertUnique x l ↔ y = x ∨ y ∈ l := by
  induction l with
  | nil => simp [insertUnique]
  | cons z zs ih =>
    unfold insertUnique
    by_cases h1 : strLt x z = true
    · simp [h1]
    · by_cases h2 : x = z
      · subst h2
        simp [h1]
        try tauto
      · simp [h1, h2, ih, List.mem_cons]
        tauto

/-- `np.unique` keeps exactly the values that occur. -/
theorem np_unique_mem (b : String) (xs : List String) : b ∈ np_unique xs ↔ b ∈ xs := by
  unfold np_unique
  induction xs with
  | nil => simp
  | cons x xs ih => simp [List.foldr_cons, mem_insertUnique, ih]

/-- Conversion succeeds on a sequence of points, giving their
coordinates. -/
theorem toCoords_points (pts : List Geom) (h : ∀ g ∈ pts, g.isPoint = true) :
    toCoords pts = .ok (pts.map toCoord) := by
  induction pts with
  | nil => rfl
  | cons g gs ih =>
    have hg : g.isPoint = true := h g (List.mem_cons_self _ _)
    have htail : toCoords gs = .ok (gs.map toCoord) :=
      ih (fun g' hg' => h g' (List.mem_cons_of_mem _ hg'))
    cases g with
    | point x y =>
      show toCoords (Geom.point x y :: gs) = _
      unfold toCoords
      rw [htail]
      rfl
    | lineString pts => simp [Geom.isPoint] at hg
    | polygon s => simp [Geom.isPoint] at hg
    | multiPolygon p => simp [Geom.isPoint] at hg
    | multiLineString p => simp [Geom.isPoint] at hg

/-- The `LineString` constructor succeeds on a sequence of points that
is not a single point, giving the line through their coordinates. -/
theorem buildLineString_points (pts : List Geom) (h : ∀ g ∈ pts, g.isPoint = true)
    (hlen : pts.length ≠ 1) :
    buildLineString pts = .ok (.lineString (pts.map toCoord)) := by
  unfold buildLineString
  rw [toCoords_points pts h]
  simp [hlen]

/-- Branches the build loop never visits keep their prior entry. -/
theorem buildLinesLoop_not_mem (lines : Lines) :
    ∀ (bs : List String) (built0 : String → Geom) (ws : List String)
      (built : String → Geom),
    buildLinesLoop lines built0 bs = (ws, .ok built) →
    ∀ b, b ∉ bs → built b = built0 b := by
  intro bs
  induction bs with
  | nil =>
    intro built0 ws built h b _
    have h2 := congrArg Prod.snd h
    simp only [buildLinesLoop] at h2
    cases h2
    rfl
  | cons c cs ih =>
    intro built0 ws built h b hb
    have hbc : b ≠ c := fun he => hb (he ▸ List.mem_cons_self _ _)
    have hbcs : b ∉ cs := fun he => hb (List.mem_cons_of_mem _ he)
    cases hbuild : buildLineString ((lines c).filterMap id) with
    | error e =>
      simp only [buildLinesLoop, hbuild] at h
      have h2 := congrArg Prod.snd h
      cases h2
    | ok g =>
      simp only [buildLinesLoop, hbuild] at h
      have h2 := congrArg Prod.snd h
      simp only at h2
      have := ih (fun b' => if b' = c then g else built0 b')
        (buildLinesLoop lines (fun b' => if b' = c then g else built0 b') cs).1 built
        (by rw [← h2]) b hbcs
      simp only [hbc, if_false] at this
      exact this

/-- When every visited branch's `LineString` construction succeeds, the
build loop completes, prints exactly the unfilled-slot warnings, and
maps each visited branch to its built line. -/
theorem buildLinesLoop_ok (lines : Lines) :
    ∀ (bs : List String) (built0 : String → Geom),
    (∀ b ∈ bs, (buildLineString ((lines b).filterMap id)).isOk = true) →
    ∃ built, buildLinesLoop lines built0 bs
        = (bs.filter (fun b => (lines b).any (fun s => s.isNone)), .ok built) ∧
      ∀ b ∈ bs, buildLineString ((lines b).filterMap id) = .ok (built b) := by
  intro bs
  induction bs with
  | nil =>
    intro built0 _
    exact ⟨built0, rfl, fun b hb => absurd hb (List.not_mem_nil b)⟩
  | cons c cs ih =>
    intro built0 hok
    obtain ⟨g, hg⟩ : ∃ g, buildLineString ((lines c).filterMap id) = .ok g := by
      cases hc : buildLineString ((lines c).filterMap id) with
      | error e =>
        have := hok c (List.mem_cons_self _ _)
        rw [hc] at this
        cases this
      | ok g => exact ⟨g, rfl⟩
    obtain ⟨built, hloop, hall⟩ := ih (fun b' => if b' = c then g else built0 b')
      (fun b hb => hok b (List.mem_cons_of_mem _ hb))
    refine ⟨built, ?_, ?_⟩
    · simp only [buildLinesLoop, hg, hloop, List.filter_cons]
      by_cases hw : ((lines c).any (fun s => s.isNone)) = true
      · simp [hw]
      · simp [hw]
    · intro b hb
      rcases List.mem_cons.mp hb with rfl | hbcs
      · by_cases hbc : b ∈ cs
        · exact hall b hbc
        · have := buildLinesLoop_not_mem lines cs (fun b' => if b' = b then g else built0 b')
            (cs.filter (fun b => (lines b).any (fun s => s.isNone))) built hloop b hbc
          simp only [if_pos rfl] at this
          rw [this]
          exact hg
      · exact hall b hbcs

/-- Reduction of the grouping pipeline once all three input checks
pass, the assignment loop has completed and the line-building loop has
completed. -/
theorem grouping_ok_eq (columns : List String) (gb oc : String) (r0 : PtRow)
    (rest : List PtRow) (lines : Lines) (ws : List String) (built : String → Geom)
    (hgb : gb ∈ columns) (hpt : r0.geom.isPoint = true) (hoc : oc ∈ columns)
    (hassign : assignLoop ((r0 :: rest).zip (order_rel (r0 :: rest)))
        (initLines ((r0 :: rest).map (fun r => r.branch))) = .ok lines)
    (hloop : buildLinesLoop lines (fun _ => Geom.lineString [])
        (multiPointBranches ((r0 :: rest).map (fun r => r.branch))) = (ws, .ok built)) :
    read_gpkg_layer_grouping columns gb oc (r0 :: rest) =
      if hasSinglepoint ((r0 :: rest).map (fun r => r.branch)) then
        (ws, .error .typeError)
      else
        (ws, .ok ((fieldsOf (r0 :: rest)).map
              (fun r => { r with geom := built r.branch }))) := by
  simp only [read_gpkg_layer_grouping, hgb, hpt, hassign]
  simp only [List.map_cons] at hloop
  simp [hgb, hoc, hloop]

/-- Counterexample to C2 as stated.  The layer
`(a,1), (b,1), (a,1), (b,2)`: branch `"a"` has two points with a
duplicate order value, its duplicate entries misalign the `order_rel`
zip so both of its rows write slot 0 and slot 1 stays unfilled.  The
warning naming `"a"` is printed, but the branch's `LineString` is NOT
built from the one assigned point: `LineString([p])` (line 296) raises
`ValueError` and the whole call aborts instead of loading features. -/
theorem read_gpkg_layer_grouping_singleslot_counterexample :
    read_gpkg_layer_grouping ["branch", "ord"] "branch" "ord"
        [⟨.point 0 0, "a", 1⟩, ⟨.point 1 1, "b", 1⟩,
         ⟨.point 2 2, "a", 1⟩, ⟨.point 3 3, "b", 2⟩]
      = (["a"], .error .valueError) ∧
    2 ≤ countB (([⟨.point 0 0, "a", 1⟩, ⟨.point 1 1, "b", 1⟩,
         ⟨.point 2 2, "a", 1⟩, ⟨.point 3 3, "b", 2⟩] : List PtRow).map
        (fun r => r.branch)) "a" := by
  exact ⟨by decide, by decide⟩

/-- C2, amended.  Malformed-group flagging in the grouping of
`read_gpkg_layer`: a missing `groupby_column` raises `ValueError`; a
first geometry that is not a `Point` raises `ValueError`; and a branch
with at least two points left with an unfilled slot after point
assignment is named by a printed warning, while its `LineString` is
built from the assigned points only — provided the `LineString`
construction succeeds for every branch with at least two points (a
branch left with exactly one assigned slot makes the constructor of
line 296 raise `ValueError` instead, see the counterexample). -/
theorem read_gpkg_layer_grouping_flags_malformed :
    (∀ (columns : List String) (gb oc : String) (rows : List PtRow),
      gb ∉ columns →
      read_gpkg_layer_grouping columns gb oc rows = ([], .error .valueError)) ∧
    (∀ (columns : List String) (gb oc : String) (r0 : PtRow) (rest : List PtRow),
      gb ∈ columns → r0.geom.isPoint = false →
      read_gpkg_layer_grouping columns gb oc (r0 :: rest) = ([], .error .valueError)) ∧
    (∀ (columns : List String) (gb oc : String) (r0 : PtRow) (rest : List PtRow)
        (lines : Lines) (b : String),
      gb ∈ columns → r0.geom.isPoint = true → oc ∈ columns →
      assignLoop ((r0 :: rest).zip (order_rel (r0 :: rest)))
          (initLines ((r0 :: rest).map (fun r => r.branch))) = .ok lines →
      (∀ b' ∈ multiPointBranches ((r0 :: rest).map (fun r => r.branch)),
        (buildLineString ((lines b').filterMap id)).isOk = true) →
      2 ≤ countB ((r0 :: rest).map (fun r => r.branch)) b →
      b ∈ (r0 :: rest).map (fun r => r.branch) →
      (lines b).any (fun s => s.isNone) = true →
      b ∈ (read_gpkg_layer_grouping columns gb oc (r0 :: rest)).1 ∧
      (hasSinglepoint ((r0 :: rest).map (fun r => r.branch)) = false →
        ∃ feats, (read_gpkg_layer_grouping columns gb oc (r0 :: rest)).2 = .ok feats ∧
          ∀ f ∈ feats, f.branch = b →
            buildLineString ((lines b).filterMap id) = .ok f.geom)) := by
  refine ⟨fun columns gb oc rows hgb => ?_,
          fun columns gb oc r0 rest hgb hpt => ?_,
          fun columns gb oc r0 rest lines b hgb hpt hoc hassign hbuildok hcnt hbmem hslot => ?_⟩
  · cases rows <;> simp [read_gpkg_layer_grouping, hgb]
  · simp [read_gpkg_layer_grouping, hgb, hpt]
  · have hbmulti : b ∈ multiPointBranches ((r0 :: rest).map (fun r => r.branch)) := by
      unfold multiPointBranches
      refine List.mem_filter.mpr ⟨(np_unique_mem _ _).mpr hbmem, by simpa using hcnt⟩
    obtain ⟨built, hloop, hall⟩ := buildLinesLoop_ok lines
      (multiPointBranches ((r0 :: rest).map (fun r => r.branch)))
      (fun _ => Geom.lineString []) hbuildok
    rw [grouping_ok_eq columns gb oc r0 rest lines _ built hgb hpt hoc hassign hloop]
    have hwarn : b ∈ (multiPointBranches ((r0 :: rest).map (fun r => r.branch))).filter
        (fun b => (lines b).any (fun s => s.isNone)) :=
      List.mem_filter.mpr ⟨hbmulti, hslot⟩
    constructor
    · cases hs : hasSinglepoint ((r0 :: rest).map (fun r => r.branch)) <;>
        simpa [hs] using hwarn
    · intro hs
      have hs' : hasSinglepoint (r0.branch :: (rest.map (fun r => r.branch))) = false := by
        simpa using hs
      refine ⟨(fieldsOf (r0 :: rest)).map
          (fun r => { r with geom := built r.branch }), by simp [hs'], ?_⟩
      intro f hf hfb
      obtain ⟨r, _, hr⟩ := List.mem_map.mp hf
      have hrb : r.branch = b := by
        rw [← hfb, ← hr]
      have hfg : f.geom = built b := by
        rw [← hr]
        show built r.branch = built b
        rw [hrb]
      rw [hfg]
      exact hall b hbmulti

/-- Witness for the amended C2 at concrete instances: a missing
groupby column and a non-`Point` first geometry both raise
`ValueError`; and a branch `"a"` of three points whose duplicate order
values leave its third slot unfilled is named by a warning while its
line is built from the two assigned points only. -/
theorem read_gpkg_layer_grouping_flags_malformed_witness :
    (read_gpkg_layer_grouping ["x"] "branch" "ord" [⟨.point 0 0, "a", 1⟩]
        = ([], .error .valueError)) ∧
    (read_gpkg_layer_grouping ["branch", "ord"] "branch" "ord" [⟨.lineString [], "a", 1⟩]
        = ([], .error .valueError)) ∧
    ("a" ∈ (read_gpkg_layer_grouping ["branch", "ord"] "branch" "ord"
        [⟨.point 0 0, "a", 1⟩, ⟨.point 1 1, "a", 1⟩, ⟨.point 2 2, "a", 2⟩]).1) ∧
    (∃ feats,
      (read_gpkg_layer_grouping ["branch", "ord"] "branch" "ord"
        [⟨.point 0 0, "a", 1⟩, ⟨.point 1 1, "a", 1⟩, ⟨.point 2 2, "a", 2⟩]).2 = .ok feats ∧
      ∀ f ∈ feats, f.branch = "a" →
        buildLineString ((updateLines (updateLines (updateLines (initLines ["a", "a", "a"])
            "a" 0 (.point 0 0)) "a" 1 (.point 1 1)) "a" 0 (.point 2 2) "a").filterMap id)
          = .ok f.geom) := by
  have h := read_gpkg_layer_grouping_flags_malformed
  have h3 := h.2.2 ["branch", "ord"] "branch" "ord" ⟨.point 0 0, "a", 1⟩
    [⟨.point 1 1, "a", 1⟩, ⟨.point 2 2, "a", 2⟩]
    (updateLines (updateLines (updateLines (initLines ["a", "a", "a"])
      "a" 0 (.point 0 0)) "a" 1 (.point 1 1)) "a" 0 (.point 2 2)) "a"
    (by decide) (by decide) (by decide) (by rfl) (by decide) (by decide) (by decide)
    (by decide)
  exact ⟨h.1 ["x"] "branch" "ord" [⟨.point 0 0, "a", 1⟩] (by decide),
         h.2.1 ["branch", "ord"] "branch" "ord" ⟨.lineString [], "a", 1⟩ [] (by decide) rfl,
         h3.1, h3.2 (by decide)⟩

/-- Inserting into a list is a permutation of consing. -/
theorem insertInt_perm (x : Int) (l : List Int) : List.Perm (insertInt x l) (x :: l) := by
  induction l with
  | nil => simp [insertInt]
  | cons y ys ih =>
    unfold insertInt
    by_cases h : x ≤ y
    · rw [if_pos h]
    · rw [if_neg h]
      exact (List.Perm.cons y ih).trans (List.Perm.swap x y ys)

/-- `sortInts` permutes its input. -/
theorem sortInts_perm (l : List Int) : List.Perm (sortInts l) l := by
  unfold sortInts
  induction l with
  | nil => simp
  | cons y ys ih =>
    simp only [List.foldr_cons]
    exact (insertInt_perm y (ys.foldr insertInt [])).trans (List.Perm.cons y ih)

/-- Insertion preserves sortedness. -/
theorem insertInt_sorted (x : Int) (l : List Int) (h : l.Pairwise (· ≤ ·)) :
    (insertInt x l).Pairwise (· ≤ ·) := by
  induction l with
  | nil => simp [insertInt]
  | cons y ys ih =>
    rw [List.pairwise_cons] at h
    unfold insertInt
    by_cases hxy : x ≤ y
    · rw [if_pos hxy, List.pairwise_cons]
      refine ⟨?_, List.Pairwise.cons h.1 h.2⟩
      intro a ha
      rcases List.mem_cons.mp ha with rfl | ha
      · exact hxy
      · exact le_trans hxy (h.1 a ha)
    · rw [if_neg hxy, List.pairwise_cons]
      refine ⟨?_, ih h.2⟩
      intro a ha
      have := (insertInt_perm x ys).mem_iff.mp ha
      rcases List.mem_cons.mp this with rfl | ha2
      · exact le_of_not_le hxy
      · exact h.1 a ha2

/-- `sortInts` sorts ascending. -/
theorem sortInts_sorted (l : List Int) : (sortInts l).Pairwise (· ≤ ·) := by
  unfold sortInts
  induction l with
  | nil => simp
  | cons y ys ih =>
    simp only [List.foldr_cons]
    exact insertInt_sorted y _ ih

/-- Row insertion projects to integer insertion of the order values. -/
theorem insertRow_map_order (x : PtRow) (l : List PtRow) :
    (insertRow x l).map (fun r => r.order) = insertInt x.order (l.map (fun r => r.order)) := by
  induction l with
  | nil => simp [insertRow, insertInt]
  | cons y ys ih =>
    unfold insertRow insertInt
    by_cases h : x.order ≤ y.order
    · simp [h]
    · simp [h, ih]

/-- Sorting rows by order value projects to sorting the order values. -/
theorem sortRows_map_order (l : List PtRow) :
    (sortRows l).map (fun r => r.order) = sortInts (l.map (fun r => r.order)) := by
  unfold sortRows sortInts
  induction l with
  | nil => simp
  | cons y ys ih => simp [List.foldr_cons, insertRow_map_order, ih]

/-- Row insertion permutes consing. -/
theorem insertRow_perm (x : PtRow) (l : List PtRow) : List.Perm (insertRow x l) (x :: l) := by
  induction l with
  | nil => simp [insertRow]
  | cons y ys ih =>
    unfold insertRow
    by_cases h : x.order ≤ y.order
    · rw [if_pos h]
    · rw [if_neg h]
      exact (List.Perm.cons y ih).trans (List.Perm.swap x y ys)

/-- `sortRows` permutes its input. -/
theorem sortRows_perm (l : List PtRow) : List.Perm (sortRows l) l := by
  unfold sortRows
  induction l with
  | nil => simp
  | cons y ys ih =>
    simp only [List.foldr_cons]
    exact (insertRow_perm y (ys.foldr insertRow [])).trans (List.Perm.cons y ih)

/-- `matchIdxsFrom` finds nothing when the value does not occur. -/
theorem matchIdxsFrom_nil (i : Nat) (v : Int) (l : List Int) (h : ∀ x ∈ l, x ≠ v) :
    matchIdxsFrom i v l = [] := by
  induction l generalizing i with
  | nil => rfl
  | cons x xs ih =>
    unfold matchIdxsFrom
    rw [if_neg (h x (List.mem_cons_self x xs)), ih]
    intro y hy
    exact h y (List.mem_cons_of_mem x hy)

/-- In a strictly sorted list, a value that occurs occurs exactly once,
at the position given by the number of smaller entries. -/
theorem matchIdxsFrom_strict (v : Int) (l : List Int) (hl : l.Pairwise (· < ·))
    (hv : v ∈ l) : ∀ i, matchIdxsFrom i v l = [i + l.countP (fun x => decide (x < v))] := by
  induction l with
  | nil => cases hv
  | cons x xs ih =>
    rw [List.pairwise_cons] at hl
    intro i
    rcases List.mem_cons.mp hv with rfl | hvs
    · have hnone : ∀ y ∈ xs, y ≠ v := fun y hy => ne_of_gt (hl.1 y hy)
      have hzero : xs.countP (fun z => decide (z < v)) = 0 := by
        rw [List.countP_eq_zero]
        intro y hy
        simp only [decide_eq_true_eq]
        exact not_lt_of_gt (hl.1 y hy)
      unfold matchIdxsFrom
      rw [if_pos rfl, matchIdxsFrom_nil _ _ _ hnone, List.countP_cons]
      simp [hzero]
    · have hxv : x < v := hl.1 v hvs
      unfold matchIdxsFrom
      rw [if_neg (ne_of_lt hxv), ih hl.2 hvs (i + 1), List.countP_cons]
      have : decide (x < v) = true := decide_eq_true hxv
      simp [this]
      omega

/-- The number of entries smaller than a member is below the length. -/
theorem countP_lt_length_of_mem (v : Int) (l : List Int) (hv : v ∈ l) :
    l.countP (fun x => decide (x < v)) < l.length := by
  rcases lt_or_eq_of_le (List.countP_le_length _) with h | h
  · exact h
  · exfalso
    have := List.countP_eq_length.mp h v hv
    simp at this

/-- In a strictly sorted list, the entry at position `j` has exactly
`j` smaller entries. -/
theorem strict_countP_get (l : List Int) (hl : l.Pairwise (· < ·)) :
    ∀ j v, l[j]? = some v → l.countP (fun x => decide (x < v)) = j := by
  induction l with
  | nil => intro j v hv; simp at hv
  | cons x xs ih =>
    rw [List.pairwise_cons] at hl
    intro j v hv
    cases j with
    | zero =>
      rw [List.getElem?_cons_zero, Option.some_inj] at hv
      subst hv
      rw [List.countP_cons]
      have h0 : xs.countP (fun z => decide (z < x)) = 0 := by
        rw [List.countP_eq_zero]
        intro y hy
        simp only [decide_eq_true_eq]
        exact not_lt_of_gt (hl.1 y hy)
      simp [h0]
    | succ k =>
      rw [List.getElem?_cons_succ] at hv
      have hmem : v ∈ xs := by
        rcases List.getElem?_eq_some_iff.mp hv with ⟨hk, hget⟩
        exact hget ▸ List.getElem_mem hk
      have hx : x < v := hl.1 v hmem
      rw [List.countP_cons, ih hl.2 k v hv]
      simp [decide_eq_true hx]

/-- Strictly fewer entries are below a smaller member. -/
theorem countP_lt_strict (v w : Int) (l : List Int) (hv : v ∈ l) (hvw : v < w) :
    l.countP (fun x => decide (x < v)) < l.countP (fun x => decide (x < w)) := by
  obtain ⟨s, t, rfl⟩ := List.append_of_mem hv
  rw [List.countP_append, List.countP_append, List.countP_cons, List.countP_cons]
  have hs : s.countP (fun x => decide (x < v)) ≤ s.countP (fun x => decide (x < w)) := by
    apply List.countP_mono_left
    intro a _ ha
    simp only [decide_eq_true_eq] at ha ⊢
    exact lt_trans ha hvw
  have ht : t.countP (fun x => decide (x < v)) ≤ t.countP (fun x => decide (x < w)) := by
    apply List.countP_mono_left
    intro a _ ha
    simp only [decide_eq_true_eq] at ha ⊢
    exact lt_trans ha hvw
  have h1 : decide (v < v) = false := by simp
  have h2 : decide (v < w) = true := decide_eq_true hvw
  rw [h1, h2]
  simp only [Bool.false_eq_true, if_false, if_true]
  omega

/-- In a strictly sorted list, members are determined by how many
entries are smaller. -/
theorem strict_countP_inj (v w : Int) (l : List Int)
    (hv : v ∈ l) (hw : w ∈ l)
    (h : l.countP (fun x => decide (x < v)) = l.countP (fun x => decide (x < w))) :
    v = w := by
  rcases lt_trichotomy v w with hlt | heq | hgt
  · exact absurd h (Nat.ne_of_lt (countP_lt_strict v w l hv hlt))
  · exact heq
  · exact absurd h.symm (Nat.ne_of_lt (countP_lt_strict w v l hw hgt))

/-- A `flatMap` of pointwise singletons is a `map`. -/
theorem flatMap_eq_map_of_singleton {α β : Type} (l : List α) (f : α → List β) (g : α → β)
    (h : ∀ r ∈ l, f r = [g r]) : l.flatMap f = l.map g := by
  induction l with
  | nil => rfl
  | cons x xs ih =>
    rw [List.flatMap_cons, h x (List.mem_cons_self x xs), List.map_cons, ih]
    · rfl
    · intro r hr
      exact h r (List.mem_cons_of_mem x hr)

/-- Zipping a list with a mapped copy of itself pairs each element with
its image. -/
theorem zip_map_self {α β : Type} (l : List α) (g : α → β) :
    l.zip (l.map g) = l.map (fun r => (r, g r)) := by
  induction l with
  | nil => rfl
  | cons x xs ih => simp [List.zip_cons_cons, ih]

/-- A filter whose predicate can hold at most once (pairwise) and does
hold at a member returns exactly that member. -/
theorem filter_eq_singleton_of_unique {α : Type} (p : α → Bool) (xs : List α) (x : α)
    (hpair : xs.Pairwise (fun a c => ¬(p a = true ∧ p c = true)))
    (hx : x ∈ xs) (hpx : p x = true) : xs.filter p = [x] := by
  induction xs with
  | nil => cases hx
  | cons h t ih =>
    rw [List.pairwise_cons] at hpair
    rcases List.mem_cons.mp hx with rfl | hxt
    · rw [List.filter_cons, if_pos hpx]
      have : t.filter p = [] := by
        rw [List.filter_eq_nil_iff]
        intro a ha hpa
        exact hpair.1 a ha ⟨hpx, hpa⟩
      rw [this]
    · have hph : p h = false := by
        cases hp : p h
        · rfl
        · exact absurd ⟨hp, hpx⟩ (hpair.1 x hxt)
      rw [List.filter_cons, if_neg (by simp [hph]), ih hpair.2 hxt]

/-- A slot write never changes the length of any branch's slot list. -/
theorem updateLines_length (lines : Lines) (b : String) (j : Nat) (g : Geom) (b' : String) :
    ((updateLines lines b j g) b').length = (lines b').length := by
  unfold updateLines
  by_cases h : b' = b
  · subst h
    simp
  · simp [h]

/-- `assignAll` never changes the length of any branch's slot list. -/
theorem assignAll_length (pairs : List (PtRow × Nat)) : ∀ (lines : Lines) (b : String),
    ((assignAll pairs lines) b).length = (lines b).length := by
  induction pairs with
  | nil =>
    intro lines b
    rfl
  | cons p rest ih =>
    intro lines b
    cases p with
    | mk r rel =>
      show ((assignAll rest (updateLines lines r.branch rel r.geom)) b).length = _
      rw [ih, updateLines_length]

/-- When every write is in range, the assignment loop of lines 281-285
raises nothing and computes `assignAll`. -/
theorem assignLoop_eq_assignAll (pairs : List (PtRow × Nat)) : ∀ (lines : Lines),
    (∀ p ∈ pairs, p.2 < (lines p.1.branch).length) →
    assignLoop pairs lines = .ok (assignAll pairs lines) := by
  induction pairs with
  | nil =>
    intro lines _
    rfl
  | cons p rest ih =>
    intro lines hb
    cases p with
    | mk r rel =>
      have h1 : rel < (lines r.branch).length := hb (r, rel) (List.mem_cons_self _ _)
      show (if rel < (lines r.branch).length then _ else _) = _
      rw [if_pos h1]
      show assignLoop rest (updateLines lines r.branch rel r.geom) = _
      rw [ih]
      · rfl
      · intro q hq
        rw [updateLines_length]
        exact hb q (List.mem_cons_of_mem _ hq)

/-- A slot no pair writes keeps its contents through `assignAll`. -/
theorem assignAll_not_written (pairs : List (PtRow × Nat)) (b : String) (j : Nat) :
    ∀ (lines : Lines), (∀ p ∈ pairs, ¬(p.1.branch = b ∧ p.2 = j)) →
    ((assignAll pairs lines) b)[j]? = (lines b)[j]? := by
  induction pairs with
  | nil =>
    intro lines _
    rfl
  | cons p rest ih =>
    intro lines h
    cases p with
    | mk r rel =>
      show ((assignAll rest (updateLines lines r.branch rel r.geom)) b)[j]? = _
      rw [ih _ (fun q hq => h q (List.mem_cons_of_mem _ hq))]
      unfold updateLines
      by_cases hb : b = r.branch
      · rw [if_pos hb]
        have hne : rel ≠ j := by
          intro hrel
          exact h (r, rel) (List.mem_cons_self _ _) ⟨hb.symm, hrel⟩
        rw [List.getElem?_set_ne hne, hb]
      · rw [if_neg hb]

/-- A slot already holding the written geometry keeps it through
`assignAll` when every pair aimed at it writes that same geometry. -/
theorem assignAll_preserve (pairs : List (PtRow × Nat)) (b : String) (j : Nat) (g : Geom) :
    ∀ (lines : Lines),
    (∀ p ∈ pairs, p.1.branch = b → p.2 = j → p.1.geom = g) →
    (lines b)[j]? = some (some g) →
    ((assignAll pairs lines) b)[j]? = some (some g) := by
  induction pairs with
  | nil =>
    intro lines _ hslot
    exact hslot
  | cons p rest ih =>
    intro lines hall hslot
    cases p with
    | mk r rel =>
      show ((assignAll rest (updateLines lines r.branch rel r.geom)) b)[j]? = _
      apply ih _ (fun q hq => hall q (List.mem_cons_of_mem _ hq))
      unfold updateLines
      by_cases hb : b = r.branch
      · rw [if_pos hb]
        by_cases hrel : rel = j
        · have hg : r.geom = g := hall (r, rel) (List.mem_cons_self _ _) hb.symm hrel
          have hlen : rel < (lines r.branch).length := by
            rw [← hb, hrel]
            exact (List.getElem?_eq_some_iff.mp hslot).1
          rw [← hrel]
          rw [List.getElem?_set_self hlen, hg]
        · rw [List.getElem?_set_ne hrel, ← hb]
          exact hslot
      · rw [if_neg hb]
        exact hslot

/-- A slot written at least once, and only ever with geometry `g`,
holds `g` after `assignAll`. -/
theorem assignAll_written (pairs : List (PtRow × Nat)) (b : String) (j : Nat) (g : Geom) :
    ∀ (lines : Lines),
    (∃ p ∈ pairs, p.1.branch = b ∧ p.2 = j) →
    (∀ p ∈ pairs, p.1.branch = b → p.2 = j → p.1.geom = g) →
    j < (lines b).length →
    ((assignAll pairs lines) b)[j]? = some (some g) := by
  induction pairs with
  | nil =>
    intro lines hex _ _
    obtain ⟨p, hp, _⟩ := hex
    cases hp
  | cons p rest ih =>
    intro lines hex hall hj
    cases p with
    | mk r rel =>
      show ((assignAll rest (updateLines lines r.branch rel r.geom)) b)[j]? = _
      by_cases hq : r.branch = b ∧ rel = j
      · have hg : r.geom = g := hall (r, rel) (List.mem_cons_self _ _) hq.1 hq.2
        apply assignAll_preserve rest b j g _
          (fun q hqr => hall q (List.mem_cons_of_mem _ hqr))
        unfold updateLines
        rw [if_pos hq.1.symm, hq.1]
        have hlen : j < (lines b).length := hj
        rw [hq.2, List.getElem?_set_self (hq.2 ▸ hlen), hg]
      · obtain ⟨q, hqmem, hqp⟩ := hex
        rcases List.mem_cons.mp hqmem with rfl | hqrest
        · exact absurd hqp hq
        · apply ih _ ⟨q, hqrest, hqp⟩ (fun q hqr => hall q (List.mem_cons_of_mem _ hqr))
          rw [updateLines_length]
          exact hj

/-- String `==` is propositional-equality decision. -/
theorem beq_eq_decide_str (x b : String) : (x == b) = decide (x = b) := by
  by_cases h : x = b <;> simp [h]

/-- The count returned by `np.unique` for `b` is the number of rows of
branch `b`. -/
theorem countB_map_branch (rows : List PtRow) (b : String) :
    countB (rows.map (fun r => r.branch)) b
      = (rows.filter (fun r => decide (r.branch = b))).length := by
  induction rows with
  | nil => rfl
  | cons r rs ih =>
    by_cases h : r.branch = b <;>
      simp [countB, List.count_cons, List.filter_cons, h, beq_eq_decide_str] at ih ⊢ <;>
      simpa using ih

/-- The sorted branch order list permutes the branch's order values. -/
theorem sortedOrders_perm (rows : List PtRow) (b : String) :
    List.Perm (sortedOrders rows b)
      ((rows.filter (fun r => decide (r.branch = b))).map (fun r => r.order)) :=
  sortInts_perm _

/-- Length of the sorted branch order list: the branch's point count. -/
theorem sortedOrders_length (rows : List PtRow) (b : String) :
    (sortedOrders rows b).length = countB (rows.map (fun r => r.branch)) b := by
  rw [(sortedOrders_perm rows b).length_eq, List.length_map, countB_map_branch]

/-- Each row's order value occurs in its branch's sorted order list. -/
theorem mem_sortedOrders (rows : List PtRow) (b : String) (r : PtRow)
    (hr : r ∈ rows) (hrb : r.branch = b) : r.order ∈ sortedOrders rows b := by
  refine (sortedOrders_perm rows b).mem_iff.mpr ?_
  exact List.mem_map.mpr ⟨r, List.mem_filter.mpr ⟨hr, by simp [hrb]⟩, rfl⟩

/-- With pairwise-distinct order values per branch, the sorted branch
order list is strictly sorted. -/
theorem sortedOrders_strict (rows : List PtRow) (b : String)
    (hdist : rows.Pairwise (fun r s => r.branch = s.branch → r.order ≠ s.order)) :
    (sortedOrders rows b).Pairwise (· < ·) := by
  have h1 : (rows.filter (fun r => decide (r.branch = b))).Pairwise
      (fun r s => r.branch = s.branch → r.order ≠ s.order) :=
    hdist.filter _
  have h2 : (rows.filter (fun r => decide (r.branch = b))).Pairwise
      (fun r s => r.order ≠ s.order) := by
    refine List.Pairwise.imp_of_mem ?_ h1
    intro a c ha hc hr
    have hab : a.branch = b := of_decide_eq_true (List.mem_filter.mp ha).2
    have hcb : c.branch = b := of_decide_eq_true (List.mem_filter.mp hc).2
    exact hr (hab.trans hcb.symm)
  have h3 : ((rows.filter (fun r => decide (r.branch = b))).map
      (fun r => r.order)).Pairwise (· ≠ ·) :=
    h2.map _ (fun a c h => h)
  have h4 : (sortedOrders rows b).Pairwise (· ≠ ·) :=
    ((sortedOrders_perm rows b).nodup_iff).mpr h3
  have h5 : (sortedOrders rows b).Pairwise (· ≤ ·) := sortInts_sorted _
  exact (h5.and h4).imp (fun h => lt_of_le_of_ne h.1 h.2)

/-- With pairwise-distinct order values per branch, each row
contributes exactly one entry to `order_rel`: its rank. -/
theorem matchIdxs_singleton (rows : List PtRow) (r : PtRow)
    (hdist : rows.Pairwise (fun r s => r.branch = s.branch → r.order ≠ s.order))
    (hr : r ∈ rows) :
    matchIdxs (sortedOrders rows r.branch) r.order = [relIdx rows r] := by
  unfold matchIdxs relIdx
  rw [matchIdxsFrom_strict r.order _ (sortedOrders_strict rows r.branch hdist)
    (mem_sortedOrders rows r.branch r hr rfl) 0, Nat.zero_add]

/-- With pairwise-distinct order values per branch, `order_rel` lines
up with the rows: entry `k` is row `k`'s rank within its branch. -/
theorem order_rel_eq (rows : List PtRow)
    (hdist : rows.Pairwise (fun r s => r.branch = s.branch → r.order ≠ s.order)) :
    order_rel rows = rows.map (fun r => relIdx rows r) := by
  unfold order_rel
  exact flatMap_eq_map_of_singleton rows _ _
    (fun r hr => matchIdxs_singleton rows r hdist hr)

/-- Each rank is within the branch's slot count. -/
theorem relIdx_lt (rows : List PtRow) (r : PtRow)
    (hr : r ∈ rows) :
    relIdx rows r < countB (rows.map (fun r => r.branch)) r.branch := by
  rw [← sortedOrders_length]
  exact countP_lt_length_of_mem r.order _ (mem_sortedOrders rows r.branch r hr rfl)

/-- Length of an initial slot list. -/
theorem initLines_length (vals : List String) (b : String) :
    (initLines vals b).length = countB vals b := by
  unfold initLines
  exact List.length_replicate _ _

/-- Distinctness of orders within a branch is symmetric. -/
theorem distinct_symm :
    Symmetric (fun (r s : PtRow) => r.branch = s.branch → r.order ≠ s.order) := by
  intro a c h hbc
  exact fun he => (h hbc.symm) he.symm

/-- The heart of claim C1: with pairwise-distinct order values per
branch, the assignment loop fills branch `b`'s slot list with exactly
the branch's points sorted by ascending order value. -/
theorem assignAll_slots (rows : List PtRow) (b : String)
    (hdist : rows.Pairwise (fun r s => r.branch = s.branch → r.order ≠ s.order)) :
    assignAll (rows.map (fun r => (r, relIdx rows r)))
        (initLines (rows.map (fun r => r.branch))) b
      = (sortRows (rows.filter (fun r => r.branch = b))).map
          (fun r => some r.geom) := by
  apply List.ext_getElem?
  intro j
  have hlenL : ((assignAll (rows.map (fun r => (r, relIdx rows r)))
      (initLines (rows.map (fun r => r.branch)))) b).length
      = countB (rows.map (fun r => r.branch)) b := by
    rw [assignAll_length, initLines_length]
  have hlenR : ((sortRows (rows.filter (fun r => r.branch = b))).map
      (fun r => some r.geom)).length = countB (rows.map (fun r => r.branch)) b := by
    rw [List.length_map, (sortRows_perm _).length_eq, countB_map_branch]
  by_cases hj : j < countB (rows.map (fun r => r.branch)) b
  · have hjR : j < (sortRows (rows.filter (fun r => r.branch = b))).length := by
      rw [(sortRows_perm _).length_eq, ← countB_map_branch] at *
      exact hj
    obtain ⟨rstar, hrstar⟩ : ∃ r, (sortRows (rows.filter (fun r => r.branch = b)))[j]?
        = some r := by
      rw [List.getElem?_eq_getElem hjR]
      exact ⟨_, rfl⟩
    have hmem_sort : rstar ∈ sortRows (rows.filter (fun r => r.branch = b)) :=
      List.getElem?_mem hrstar
    have hmem_b : rstar ∈ rows.filter (fun r => r.branch = b) :=
      (sortRows_perm _).mem_iff.mp hmem_sort
    have hrb : rstar.branch = b := of_decide_eq_true (List.mem_filter.mp hmem_b).2
    have hmem_rows : rstar ∈ rows := (List.mem_filter.mp hmem_b).1
    have horder : (sortedOrders rows b)[j]? = some rstar.order := by
      unfold sortedOrders
      rw [← sortRows_map_order, List.getElem?_map, hrstar]
      rfl
    have hrel : relIdx rows rstar = j := by
      unfold relIdx
      rw [hrb]
      exact strict_countP_get _ (sortedOrders_strict rows b hdist) j rstar.order horder
    have hwrite : ((assignAll (rows.map (fun r => (r, relIdx rows r)))
        (initLines (rows.map (fun r => r.branch)))) b)[j]? = some (some rstar.geom) := by
      apply assignAll_written
      · exact ⟨(rstar, relIdx rows rstar),
          List.mem_map.mpr ⟨rstar, hmem_rows, rfl⟩, hrb, hrel⟩
      · intro p hp hpb hpj
        obtain ⟨r, hrmem, hreq⟩ := List.mem_map.mp hp
        have hr1 : r.branch = b := by rw [← hreq] at hpb; exact hpb
        have hr2 : relIdx rows r = j := by rw [← hreq] at hpj; exact hpj
        have hcount : (sortedOrders rows b).countP (fun x => decide (x < r.order)) = j := by
          unfold relIdx at hr2
          rw [hr1] at hr2
          exact hr2
        have hcount2 : (sortedOrders rows b).countP
            (fun x => decide (x < rstar.order)) = j := by
          unfold relIdx at hrel
          rw [hrb] at hrel
          exact hrel
        have hordeq : r.order = rstar.order :=
          strict_countP_inj r.order rstar.order (sortedOrders rows b)
            (mem_sortedOrders rows b r hrmem hr1)
            (mem_sortedOrders rows b rstar hmem_rows hrb)
            (hcount.trans hcount2.symm)
        have hreqstar : r = rstar := by
          by_contra hne
          exact (hdist.forall distinct_symm hrmem hmem_rows hne)
            (hr1.trans hrb.symm) hordeq
        rw [← hreq, hreqstar]
      · rw [initLines_length]
        exact hj
    rw [hwrite, List.getElem?_map, hrstar]
    rfl
  · rw [List.getElem?_eq_none (by rw [hlenL]; exact Nat.le_of_not_lt hj),
        List.getElem?_eq_none (by rw [hlenR]; exact Nat.le_of_not_lt hj)]

/-- The start-number fold never exceeds its initial value. -/
theorem snFold_le_init (b : String) (l : List PtRow) : ∀ init : Int,
    l.foldl (fun acc r => if r.branch = b then min r.order acc else acc) init ≤ init := by
  induction l with
  | nil =>
    intro init
    simp
  | cons q qs ih =>
    intro init
    rw [List.foldl_cons]
    by_cases h : q.branch = b
    · rw [if_pos h]
      exact le_trans (ih _) (min_le_right _ _)
    · rw [if_neg h]
      exact ih init

/-- The start-number fold is bounded by every order of the branch. -/
theorem snFold_le_mem (b : String) (l : List PtRow) : ∀ (init : Int), ∀ r ∈ l,
    r.branch = b →
    l.foldl (fun acc r => if r.branch = b then min r.order acc else acc) init ≤ r.order := by
  induction l with
  | nil =>
    intro init r hr
    cases hr
  | cons q qs ih =>
    intro init r hr hrb
    rw [List.foldl_cons]
    rcases List.mem_cons.mp hr with rfl | hr'
    · rw [if_pos hrb]
      exact le_trans (snFold_le_init b qs _) (min_le_left _ _)
    · by_cases h : q.branch = b
      · rw [if_pos h]
        exact ih _ r hr' hrb
      · rw [if_neg h]
        exact ih _ r hr' hrb

/-- The start-number fold returns its initial value or some branch
member's order. -/
theorem snFold_cases (b : String) (l : List PtRow) : ∀ init : Int,
    l.foldl (fun acc r => if r.branch = b then min r.order acc else acc) init = init ∨
    ∃ r ∈ l, r.branch = b ∧
      l.foldl (fun acc r => if r.branch = b then min r.order acc else acc) init = r.order := by
  induction l with
  | nil =>
    intro init
    left
    rfl
  | cons q qs ih =>
    intro init
    rw [List.foldl_cons]
    by_cases h : q.branch = b
    · rw [if_pos h]
      rcases ih (min q.order init) with heq | ⟨r, hr, hrb, heq⟩
      · rcases le_total q.order init with hmin | hmin
        · right
          exact ⟨q, List.mem_cons_self _ _, h, by rw [heq]; exact min_eq_left hmin⟩
        · left
          rw [heq]
          exact min_eq_right hmin
      · right
        exact ⟨r, List.mem_cons_of_mem _ hr, hrb, heq⟩
    · rw [if_neg h]
      rcases ih init with heq | ⟨r, hr, hrb, heq⟩
      · left
        exact heq
      · right
        exact ⟨r, List.mem_cons_of_mem _ hr, hrb, heq⟩

/-- `startnr` bounds every order of its branch. -/
theorem startnr_le_order (rows : List PtRow) (b : String) (r : PtRow)
    (hr : r ∈ rows) (hrb : r.branch = b) : startnr rows b ≤ r.order :=
  snFold_le_mem b rows _ r hr hrb

/-- When some branch member's order does not exceed `n + 1`, the branch
start number is attained by a member. -/
theorem startnr_attained (rows : List PtRow) (b : String)
    (hmin : ∃ r ∈ rows, r.branch = b ∧ r.order ≤ (rows.length : Int) + 1) :
    ∃ r ∈ rows, r.branch = b ∧ r.order = startnr rows b := by
  unfold startnr
  rcases snFold_cases b rows ((rows.length : Int) + 1) with heq | ⟨r, hr, hrb, heq⟩
  · obtain ⟨r0, hr0, hr0b, hr0le⟩ := hmin
    have hle := snFold_le_mem b rows ((rows.length : Int) + 1) r0 hr0 hr0b
    rw [heq] at hle
    exact ⟨r0, hr0, hr0b, by rw [heq]; exact le_antisymm hr0le hle⟩
  · exact ⟨r, hr, hrb, heq.symm⟩

/-- With the amendment's hypothesis, `fields` keeps exactly one row per
branch: the one carrying the branch's smallest order value. -/
theorem fieldsOf_filter_singleton (rows : List PtRow) (b : String)
    (hdist : rows.Pairwise (fun r s => r.branch = s.branch → r.order ≠ s.order))
    (hmin : ∃ r ∈ rows, r.branch = b ∧ r.order ≤ (rows.length : Int) + 1) :
    ∃ rb, (fieldsOf rows).filter (fun r => r.branch = b) = [rb] ∧ rb.branch = b := by
  obtain ⟨rstar, hmemr, hrb, hord⟩ := startnr_attained rows b hmin
  unfold fieldsOf
  rw [List.filter_filter]
  refine ⟨rstar, filter_eq_singleton_of_unique _ rows rstar ?_ hmemr ?_, hrb⟩
  · refine hdist.imp ?_
    intro a c hR hpac
    obtain ⟨hpa, hpc⟩ := hpac
    rw [Bool.and_eq_true, decide_eq_true_eq, decide_eq_true_eq] at hpa hpc
    obtain ⟨ha1, ha2⟩ := hpa
    obtain ⟨hc1, hc2⟩ := hpc
    apply hR (ha1.trans hc1.symm)
    rw [ha2, hc2, ha1, hc1]
  · rw [Bool.and_eq_true, decide_eq_true_eq, decide_eq_true_eq]
    exact ⟨hrb, by rw [hrb]; exact hord⟩

/-- Slot lists built from pointwise `some` collapse under `filterMap
id`. -/
theorem filterMap_id_map_some {α β : Type} (l : List α) (f : α → β) :
    (l.map (fun x => some (f x))).filterMap id = l.map f := by
  induction l with
  | nil => rfl
  | cons x xs ih => simp [ih]

/-- Filtering a geometry-replaced row list by branch commutes with the
replacement. -/
theorem map_geom_filter_branch (l : List PtRow) (G : PtRow → Geom) (b : String) :
    ((l.map (fun r => { r with geom := G r })).filter (fun f => f.branch = b)).map
        (fun f => f.geom)
      = (l.filter (fun r => r.branch = b)).map (fun r => G r) := by
  induction l with
  | nil => rfl
  | cons r rs ih =>
    by_cases h : r.branch = b <;> simp [List.filter_cons, h, ih]

/-- C1, amended.  For a point layer whose branches each hold at least
two points with pairwise-distinct order values, AND whose branches each
contain an order value not exceeding `layer.shape[0] + 1` (the
initialisation of `startnr`, line 264 — without this a branch produces
no feature at all, see the counterexample), the grouping step of
`read_gpkg_layer` succeeds and produces exactly one feature per branch,
whose geometry is the `LineString` of the branch's points sorted by
ascending order value, also when the numbering is non-contiguous or
does not start at 1. -/
theorem read_gpkg_layer_grouping_sorted_lines
    (columns : List String) (gb oc : String) (r0 : PtRow) (rest : List PtRow)
    (hgb : gb ∈ columns) (hoc : oc ∈ columns)
    (hpts : ∀ r ∈ r0 :: rest, r.geom.isPoint = true)
    (hcnt : ∀ b ∈ (r0 :: rest).map (fun r => r.branch),
      2 ≤ countB ((r0 :: rest).map (fun r => r.branch)) b)
    (hdist : (r0 :: rest).Pairwise (fun r s => r.branch = s.branch → r.order ≠ s.order))
    (hmin : ∀ b ∈ (r0 :: rest).map (fun r => r.branch),
      ∃ r ∈ r0 :: rest, r.branch = b ∧ r.order ≤ ((r0 :: rest).length : Int) + 1) :
    ∃ feats, (read_gpkg_layer_grouping columns gb oc (r0 :: rest)).2 = .ok feats ∧
      (∀ f ∈ feats, f.branch ∈ (r0 :: rest).map (fun r => r.branch)) ∧
      ∀ b ∈ (r0 :: rest).map (fun r => r.branch),
        (feats.filter (fun f => f.branch = b)).map (fun f => f.geom)
          = [spec_branch_line (r0 :: rest) b] := by
  have hassign : assignLoop ((r0 :: rest).zip (order_rel (r0 :: rest)))
      (initLines ((r0 :: rest).map (fun r => r.branch)))
      = .ok (assignAll ((r0 :: rest).map (fun r => (r, relIdx (r0 :: rest) r)))
          (initLines ((r0 :: rest).map (fun r => r.branch)))) := by
    rw [order_rel_eq _ hdist, zip_map_self]
    apply assignLoop_eq_assignAll
    intro p hp
    obtain ⟨r, hr, rfl⟩ := List.mem_map.mp hp
    rw [initLines_length]
    exact relIdx_lt _ r hr
  have hs : hasSinglepoint ((r0 :: rest).map (fun r => r.branch)) = false := by
    cases hsc : hasSinglepoint ((r0 :: rest).map (fun r => r.branch))
    · rfl
    · exfalso
      unfold hasSinglepoint at hsc
      rw [List.any_eq_true] at hsc
      obtain ⟨b, hbmem, hblt⟩ := hsc
      have hble := hcnt b ((np_unique_mem b _).mp hbmem)
      rw [decide_eq_true_eq] at hblt
      omega
  have hbranchline : ∀ b' ∈ (r0 :: rest).map (fun r => r.branch),
      2 ≤ countB ((r0 :: rest).map (fun r => r.branch)) b' →
      buildLineString (((assignAll ((r0 :: rest).map (fun r => (r, relIdx (r0 :: rest) r)))
          (initLines ((r0 :: rest).map (fun r => r.branch)))) b').filterMap id)
        = .ok (spec_branch_line (r0 :: rest) b') := by
    intro b' _ hcnt'
    rw [assignAll_slots (r0 :: rest) b' hdist, filterMap_id_map_some]
    have hpoints : ∀ g ∈ (sortRows ((r0 :: rest).filter
        (fun r => r.branch = b'))).map (fun r => r.geom), g.isPoint = true := by
      intro g hg
      obtain ⟨r, hrmem, hreq⟩ := List.mem_map.mp hg
      have hr2 : r ∈ (r0 :: rest).filter (fun r => r.branch = b') :=
        (sortRows_perm _).mem_iff.mp hrmem
      rw [← hreq]
      exact hpts r (List.mem_filter.mp hr2).1
    have hlen : ((sortRows ((r0 :: rest).filter
        (fun r => r.branch = b'))).map (fun r => r.geom)).length ≠ 1 := by
      rw [List.length_map, (sortRows_perm _).length_eq, ← countB_map_branch]
      omega
    rw [buildLineString_points _ hpoints hlen]
    unfold spec_branch_line
    rw [List.map_map]
    rfl
  have hbuildok : ∀ b' ∈ multiPointBranches ((r0 :: rest).map (fun r => r.branch)),
      (buildLineString (((assignAll ((r0 :: rest).map (fun r => (r, relIdx (r0 :: rest) r)))
          (initLines ((r0 :: rest).map (fun r => r.branch)))) b').filterMap id)).isOk
        = true := by
    intro b' hb'
    have hb'vals : b' ∈ (r0 :: rest).map (fun r => r.branch) :=
      (np_unique_mem _ _).mp (List.mem_filter.mp hb').1
    have hcnt' : 2 ≤ countB ((r0 :: rest).map (fun r => r.branch)) b' := by
      have := (List.mem_filter.mp hb').2
      simpa using this
    rw [hbranchline b' hb'vals hcnt']
    rfl
  obtain ⟨built, hloop, hbuilt⟩ := buildLinesLoop_ok _
    (multiPointBranches ((r0 :: rest).map (fun r => r.branch)))
    (fun _ => Geom.lineString []) hbuildok
  rw [grouping_ok_eq columns gb oc r0 rest _ _ built hgb
    (hpts r0 (List.mem_cons_self _ _)) hoc hassign hloop,
    if_neg (by rw [hs]; exact Bool.false_ne_true)]
  refine ⟨_, rfl, ?_, ?_⟩
  · intro f hf
    obtain ⟨r, hrmem, hreq⟩ := List.mem_map.mp hf
    unfold fieldsOf at hrmem
    have hrrows : r ∈ r0 :: rest := (List.mem_filter.mp hrmem).1
    rw [← hreq]
    exact List.mem_map.mpr ⟨r, hrrows, rfl⟩
  · intro b hbmem
    obtain ⟨rb, hfilter, hrbb⟩ := fieldsOf_filter_singleton (r0 :: rest) b hdist (hmin b hbmem)
    rw [map_geom_filter_branch, hfilter]
    simp only [List.map_cons, List.map_nil]
    rw [hrbb]
    have hbmulti : b ∈ multiPointBranches ((r0 :: rest).map (fun r => r.branch)) :=
      List.mem_filter.mpr ⟨(np_unique_mem _ _).mpr hbmem, by simpa using hcnt b hbmem⟩
    have h1 := hbuilt b hbmulti
    have h2 := hbranchline b hbmem (hcnt b hbmem)
    have hbeq : built b = spec_branch_line (r0 :: rest) b :=
      Except.ok.inj (h1.symm.trans h2)
    rw [hbeq]

/-- Witness for the amended C1 at a concrete instance: one branch
`"a"` with two points at the non-contiguous order values 5 and 3 (not
starting at 1, minimum 3 = `n + 1`): the grouping produces exactly one
feature for `"a"`, the line through the points ordered 3 then 5. -/
theorem read_gpkg_layer_grouping_sorted_lines_witness :
    (([⟨.point 1 1, "a", 5⟩, ⟨.point 0 0, "a", 3⟩] : List PtRow).Pairwise
        (fun r s => r.branch = s.branch → r.order ≠ s.order)) ∧
    (∀ b ∈ ([⟨.point 1 1, "a", 5⟩, ⟨.point 0 0, "a", 3⟩] : List PtRow).map
        (fun r => r.branch),
      2 ≤ countB (([⟨.point 1 1, "a", 5⟩, ⟨.point 0 0, "a", 3⟩] : List PtRow).map
        (fun r => r.branch)) b) ∧
    (∃ feats, (read_gpkg_layer_grouping ["branch", "ord"] "branch" "ord"
        [⟨.point 1 1, "a", 5⟩, ⟨.point 0 0, "a", 3⟩]).2 = .ok feats ∧
      (∀ f ∈ feats, f.branch ∈ ([⟨.point 1 1, "a", 5⟩, ⟨.point 0 0, "a", 3⟩] :
          List PtRow).map (fun r => r.branch)) ∧
      ∀ b ∈ ([⟨.point 1 1, "a", 5⟩, ⟨.point 0 0, "a", 3⟩] : List PtRow).map
          (fun r => r.branch),
        (feats.filter (fun f => f.branch = b)).map (fun f => f.geom)
          = [spec_branch_line [⟨.point 1 1, "a", 5⟩, ⟨.point 0 0, "a", 3⟩] b]) :=
  ⟨by decide, by decide,
   read_gpkg_layer_grouping_sorted_lines ["branch", "ord"] "branch" "ord"
     ⟨.point 1 1, "a", 5⟩ [⟨.point 0 0, "a", 3⟩]
     (by decide) (by decide) (by decide) (by decide) (by decide) (by decide)⟩

end HydroCommon

namespace HydroCommon

example :
    read_gpkg_layer_grouping ["branch", "ord"] "branch" "ord"
      [⟨.point 0 0, "a", 1⟩, ⟨.point 1 1, "a", 2⟩, ⟨.point 2 2, "b", 1⟩]
      = ([], .error .typeError) := by decide

example :
    read_gpkg_layer_grouping ["branch", "ord"] "branch" "ord"
      [⟨.point 1 1, "a", 5⟩, ⟨.point 0 0, "a", 3⟩]
      = ([], .ok [⟨.lineString [(0, 0), (1, 1)], "a", 3⟩]) := by decide

example :
    read_gpkg_layer_grouping ["branch", "ord"] "branch" "ord"
      [⟨.point 1 1, "a", 10⟩, ⟨.point 0 0, "a", 11⟩]
      = ([], .ok []) := by decide

example :
    read_gpkg_layer_grouping ["branch", "ord"] "branch" "ord"
      [⟨.point 0 0, "a", 1⟩, ⟨.point 1 1, "a", 1⟩, ⟨.point 2 2, "a", 2⟩]
      = (["a"], .ok [⟨.lineString [(2, 2), (1, 1)], "a", 1⟩,
                     ⟨.lineString [(2, 2), (1, 1)], "a", 1⟩]) := by decide

end HydroCommon
